import Mathlib

/-!
# 3DPortfolio viewer (`src/main.js`)

A shallow embedding of the core of the model viewer: the selection controller
(`setActive` and the navigation handlers), the staged loader (`loadOne`,
`loadAll`, `loadNext`) and the camera framing routine (`frameObject`).

Conventions of the embedding.

* JavaScript numbers that hold array indices are modelled as `Int`; the `%`
  operator is the truncating remainder `Int.tmod` (the result takes the sign of
  the dividend).  Integer arithmetic on doubles is exact up to magnitude
  `2 ^ 53` (`maxExactInteger`); statements about arbitrary arguments of
  `setActive` carry that bound where the value of the sum matters.
* The module-level variables `instances` and `activeIndex` become fields of
  `State`.  A scene object is represented by its `visible` flag together with a
  ghost field `src`, the index in the catalog of the descriptor whose file it
  was loaded from (the JavaScript object itself carries no such link).
* The event loop is modelled by `step`: one call runs one callback to
  completion (a load callback, an idle callback, a click or key handler).
  Effects that leave the page are appended to the ghost field `log` in program
  order.
* Numbers of the camera framing code are elements of a linearly ordered field
  `F` (exact arithmetic), and the library functions `Math.sin`, `Math.sqrt` and
  the constant `Math.PI` are supplied through `MathFns F`.
-/

namespace Portfolio

/-! ## Catalog -/

/-- An entry of the `MODELS` array (the `caption` and `fields` members play no
role in the control flow and are left out). -/
structure Meta where
  id : String
  name : String
  file : String
  deriving DecidableEq, Repr

/-- The catalog `MODELS` of `main.js`. -/
def MODELS : List Meta :=
  [ ⟨"e11", "E11 Blaster", "/models/E11_Final_squoosh-v1.glb"⟩,
    ⟨"ramen", "Ramen Bowl", "/models/Ramen_squoosh_v1.glb"⟩ ]

/-! ## Viewer state -/

/-- An element `{ obj }` of `instances`: `visible` is `obj.visible`, `src` is
the catalog index of the descriptor passed to the `loadOne` call that produced
`obj`. -/
structure Instance where
  src : Nat
  visible : Bool
  deriving DecidableEq, Repr

/-- Effects recorded in program order. -/
inductive Action where
  /-- `loader.load(MODELS[k].file, ...)` was called. -/
  | loadRequested (k : Nat)
  /-- The object loaded from `MODELS[k]` was written into `instances`. -/
  | stored (k : Nat)
  /-- `setActive` assigned `activeIndex = a` and updated every `visible` flag;
  `shown` lists, in array order, the catalog indices of the instances that are
  visible after the update. -/
  | activated (a : Int) (shown : List Nat)
  /-- `setUI(MODELS[a])` ran. -/
  | uiShown (a : Int)
  /-- `frameObject` was called on the object loaded from `MODELS[k]`. -/
  | framed (k : Nat)
  /-- `hideLoading()` ran. -/
  | loadingHidden
  /-- `loadEnvDeferred` was handed to `requestIdleCallback` / `setTimeout`. -/
  | envScheduled
  /-- `new RGBELoader().load(HDR_PATH, ...)` was called. -/
  | envRequested
  /-- `loadNext` was handed to `requestIdleCallback` / `setTimeout`. -/
  | nextScheduled
  /-- `console.error("GLB load error:", ...)` ran for `MODELS[k]`. -/
  | loadErrorLogged (k : Nat)
  deriving DecidableEq, Repr

/-- Progress of the `async function loadAll`. -/
inductive Phase where
  /-- Suspended at `await loadOne(firstMeta)`. -/
  | first
  /-- The promise returned by `loadAll()` was rejected. -/
  | failed
  /-- The body of `loadAll` ran to its end; the `loadNext` chain is live. -/
  | background
  deriving DecidableEq, Repr

/-- The mutable state of the viewer. -/
structure State where
  /-- The array `instances`. -/
  instances : List Instance
  /-- The variable `activeIndex`. -/
  activeIndex : Int
  /-- Index of the descriptor last passed to `setUI`, if any. -/
  shownMeta : Option Int
  phase : Phase
  /-- Catalog index of the model whose `loader.load` is outstanding. -/
  inflight : Option Nat
  /-- The local array `rest` of `loadAll` (catalog indices). -/
  rest : List Nat
  /-- An idle callback / timer for `loadEnvDeferred` is pending. -/
  envTimer : Bool
  /-- An idle callback / timer for `loadNext` is pending. -/
  nextTimer : Bool
  /-- The environment map load is outstanding. -/
  envInflight : Bool
  /-- Number of exceptions and promise rejections that reached the host
  without a handler. -/
  uncaught : Nat
  log : List Action
  deriving DecidableEq, Repr

/-- Result of a call that may throw: the state it leaves behind and whether an
exception escaped. -/
structure Outcome where
  state : State
  threw : Bool
  deriving DecidableEq, Repr

/-- Reading `xs[i]` for a JavaScript number `i` holding an integer:
`undefined` (here `none`) outside `0 .. xs.length - 1`. -/
def jsIndex {α : Type} (xs : List α) (i : Int) : Option α :=
  if 0 ≤ i then xs[i.toNat]? else none

/-- The assignment `instances[0] = x`. -/
def setFirst (xs : List Instance) (x : Instance) : List Instance :=
  match xs with
  | [] => [x]
  | _ :: tl => x :: tl

/-- The statement
`instances.forEach((ins, idx) => (ins.obj.visible = idx === activeIndex))`. -/
def showOnly (xs : List Instance) (a : Int) : List Instance :=
  xs.mapIdx fun idx ins => { ins with visible := decide ((idx : Int) = a) }

/-- The catalog indices of the visible instances, in array order. -/
def visibleSrcs (xs : List Instance) : List Nat :=
  (xs.filter fun ins => ins.visible).map Instance.src

/-- The number `2 ^ 53`.  Every integer of magnitude up to `2 ^ 53` is a
double, and the double sum of two integers equals their integer sum as long as
that sum has magnitude at most `2 ^ 53`; beyond it the sum is rounded (for
instance `(2 ^ 53 - 1) + 2` evaluates to `2 ^ 53`). -/
def maxExactInteger : Int := 9007199254740992

/-- The function `setActive(i)`.

The sum `i + instances.length` is taken over `Int`; this is the value that
JavaScript computes whenever the sum has magnitude at most `maxExactInteger`,
which is the case for every call made by the page (`i` is `0`, a dot index or
`activeIndex ± 1`).  The remainder `%` is exact on doubles.

After the guard, `activeIndex` and the `visible` flags are updated.  Then
`setUI(MODELS[activeIndex])` reads `meta.name`, which throws a `TypeError` when
`MODELS[activeIndex]` is `undefined`; in that case the remaining statements
(the bounce tweens and `frameObject`) do not run.  The tweens only touch the
rotation and position of the active object, which the state does not track. -/
def setActive (catalog : List Meta) (s : State) (i : Int) : Outcome :=
  if s.instances.length = 0 then ⟨s, false⟩
  else
    let n : Int := s.instances.length
    let a : Int := Int.tmod (i + n) n
    let s1 : State :=
      { s with activeIndex := a
               instances := showOnly s.instances a
               log := s.log ++ [Action.activated a (visibleSrcs (showOnly s.instances a))] }
    match jsIndex catalog a with
    | none => ⟨s1, true⟩
    | some _ =>
      let s2 : State := { s1 with shownMeta := some a, log := s1.log ++ [Action.uiShown a] }
      match jsIndex s2.instances a with
      | none => ⟨s2, true⟩
      | some ins => ⟨{ s2 with log := s2.log ++ [Action.framed ins.src] }, false⟩

/-- An event handler that calls `f`: an exception that escapes the handler is
reported by the host as an uncaught error. -/
def handler (o : Outcome) : State :=
  if o.threw then { o.state with uncaught := o.state.uncaught + 1 } else o.state

/-! ## Loader -/

/-- State before any script statement of the viewer has run. -/
def blank : State :=
  { instances := [], activeIndex := 0, shownMeta := none, phase := Phase.first,
    inflight := none, rest := [], envTimer := false, nextTimer := false,
    envInflight := false, uncaught := 0, log := [] }

/-- The call `loadAll()` at module level, up to its first suspension.
`loadOne(MODELS[0])` calls `loader.load` synchronously; for an empty catalog
`MODELS[0]` is `undefined`, reading `meta.file` throws inside the promise
executor and the promise of `loadAll()`, which has no handler, is rejected. -/
def loadAll (catalog : List Meta) (s : State) : State :=
  match catalog with
  | [] => { s with phase := Phase.failed, uncaught := s.uncaught + 1 }
  | _ :: _ =>
    { s with phase := Phase.first, inflight := some 0
             log := s.log ++ [Action.loadRequested 0] }

/-- The state in which the first event is delivered. -/
def init (catalog : List Meta) : State := loadAll catalog blank

/-- The rest of `loadAll` after `await loadOne(firstMeta)` has produced the
object: lines 223 to 253. -/
def loadAllResume (catalog : List Meta) (s : State) : State :=
  let s1 : State :=
    { s with instances := setFirst s.instances ⟨0, false⟩
             log := s.log ++ [Action.stored 0] }
  let o := setActive catalog s1 0
  if o.threw then
    { o.state with phase := Phase.failed, uncaught := o.state.uncaught + 1 }
  else
    let s2 := o.state
    { s2 with
        envTimer := true
        rest := (List.range catalog.length).drop 1
        nextTimer := true
        phase := Phase.background
        log := s2.log ++ [Action.framed 0, Action.loadingHidden,
                          Action.envScheduled, Action.nextScheduled] }

/-- The closure `loadNext` of `loadAll`. -/
def loadNext (s : State) : State :=
  match s.rest with
  | [] => s
  | k :: tl =>
    { s with rest := tl, inflight := some k
             log := s.log ++ [Action.loadRequested k] }

/-- The callback `({ obj }) => { instances.push({ obj }); ... }` given to
`loadOne(meta).then`. -/
def onRestLoaded (s : State) (k : Nat) : State :=
  { s with instances := s.instances ++ [⟨k, false⟩]
           nextTimer := true
           log := s.log ++ [Action.stored k, Action.nextScheduled] }

/-- Things that the host delivers to the page. -/
inductive Event where
  /-- The success callback of the outstanding `loader.load`. -/
  | loadResolved
  /-- The error callback of the outstanding `loader.load`. -/
  | loadRejected
  /-- The pending idle callback / timer for `loadEnvDeferred` fires. -/
  | idleEnv
  /-- The pending idle callback / timer for `loadNext` fires. -/
  | idleNext
  /-- The environment map load finishes (with either outcome). -/
  | envSettled
  | prevClick
  | nextClick
  | arrowLeft
  | arrowRight
  /-- A click on the indicator dot created for `MODELS[i]`. -/
  | dotClick (i : Nat)
  deriving DecidableEq, Repr

/-- One turn of the event loop.  An event that has no callback registered in
the current state leaves the state unchanged. -/
def step (catalog : List Meta) (s : State) : Event → State
  | Event.loadResolved =>
    match s.inflight with
    | none => s
    | some k =>
      match s.phase with
      | Phase.first => loadAllResume catalog { s with inflight := none }
      | Phase.background => onRestLoaded { s with inflight := none } k
      | Phase.failed => s
  | Event.loadRejected =>
    match s.inflight with
    | none => s
    | some k =>
      match s.phase with
      | Phase.first =>
        -- `await` rethrows, `loadAll()` is rejected and nothing handles it
        { s with inflight := none, phase := Phase.failed
                 uncaught := s.uncaught + 1
                 log := s.log ++ [Action.loadErrorLogged k] }
      | Phase.background =>
        -- the promise returned by `.then(...)` is rejected and has no handler;
        -- the callback that would reschedule `loadNext` does not run
        { s with inflight := none
                 uncaught := s.uncaught + 1
                 log := s.log ++ [Action.loadErrorLogged k] }
      | Phase.failed => s
  | Event.idleEnv =>
    if s.envTimer then
      { s with envTimer := false, envInflight := true
               log := s.log ++ [Action.envRequested] }
    else s
  | Event.idleNext =>
    if s.nextTimer then loadNext { s with nextTimer := false } else s
  | Event.envSettled =>
    if s.envInflight then { s with envInflight := false } else s
  | Event.prevClick => handler (setActive catalog s (s.activeIndex - 1))
  | Event.nextClick => handler (setActive catalog s (s.activeIndex + 1))
  | Event.arrowLeft => handler (setActive catalog s (s.activeIndex - 1))
  | Event.arrowRight => handler (setActive catalog s (s.activeIndex + 1))
  | Event.dotClick i =>
    -- `renderDots` creates one dot per element of `MODELS`
    if i < catalog.length then handler (setActive catalog s (i : Int)) else s

/-- The state after a sequence of events, starting from `s`. -/
def runFrom (catalog : List Meta) (s : State) (evs : List Event) : State :=
  evs.foldl (step catalog) s

/-- The state after a sequence of events, starting from the initial state. -/
def run (catalog : List Meta) (evs : List Event) : State :=
  runFrom catalog (init catalog) evs

/-- The states the viewer can be in. -/
def Reachable (catalog : List Meta) (s : State) : Prop :=
  ∃ evs : List Event, run catalog evs = s

/-- The invariant of the selection state carried through every turn of the
event loop: once `instances` is non-empty `activeIndex` is one of its indices,
only the instance at `activeIndex` can be visible, and `instances` is
non-empty once `loadAll` has passed its `await`. -/
def Inv (s : State) : Prop :=
  (s.instances ≠ [] → 0 ≤ s.activeIndex ∧ s.activeIndex < s.instances.length)
    ∧ (∀ (idx : Nat) (ins : Instance),
        s.instances[idx]? = some ins → ins.visible = true → (idx : Int) = s.activeIndex)
    ∧ (s.phase = Phase.background → s.instances ≠ [])

/-- The viewer once both models of `MODELS` have been loaded: the first load
completes, the idle callback starts the second load, and it completes. -/
def twoLoaded : State :=
  run MODELS [Event.loadResolved, Event.idleNext, Event.loadResolved]

/-! ## Driving the loader to completion -/

/-- The event that settles the outstanding load of `MODELS[k]` when `ok` tells
which loads succeed. -/
def settleEvent (ok : Nat → Bool) (k : Nat) : Event :=
  if ok k then Event.loadResolved else Event.loadRejected

/-- Deliver load completions and `loadNext` idle callbacks until neither is
pending (or the fuel runs out). -/
def drive (catalog : List Meta) (ok : Nat → Bool) : Nat → State → State
  | 0, s => s
  | fuel + 1, s =>
    match s.inflight with
    | some k => drive catalog ok fuel (step catalog s (settleEvent ok k))
    | none =>
      if s.nextTimer then drive catalog ok fuel (step catalog s Event.idleNext)
      else s

/-- The state once the loader has come to rest, for a given pattern of load
successes and failures.  Each descriptor needs at most two events (the idle
callback and the completion), so `2 * catalog.length + 1` steps suffice. -/
def loadOutcome (catalog : List Meta) (ok : Nat → Bool) : State :=
  drive catalog ok (2 * catalog.length + 1) (init catalog)

/-- Nothing of the loader is pending: no model load is outstanding and no
`loadNext` callback is scheduled. -/
def loaderAtRest (s : State) : Bool :=
  s.inflight.isNone && !s.nextTimer

/-- The catalog indices whose load succeeds, in catalog order. -/
def succeeded (catalog : List Meta) (ok : Nat → Bool) : List Nat :=
  (List.range catalog.length).filter ok

/-- The catalog indices before the first one whose load fails, in catalog
order. -/
def loadedBeforeFailure (catalog : List Meta) (ok : Nat → Bool) : List Nat :=
  (List.range catalog.length).takeWhile ok

/-- A catalog of three descriptors: those of `MODELS` and one more. -/
def threeModels : List Meta :=
  MODELS ++ [⟨"third", "Third Model", "/models/third.glb"⟩]

/-- The load pattern in which exactly the load of descriptor 1 fails. -/
def secondFails (k : Nat) : Bool := decide (k ≠ 1)

/-- Actions that `loadAll` defers until the first model is on screen: the
environment map (scheduling and request), the `loadNext` chain, and the load of
any descriptor other than the first. -/
def deferred : Action → Bool
  | Action.envScheduled => true
  | Action.envRequested => true
  | Action.nextScheduled => true
  | Action.loadRequested k => decide (1 ≤ k)
  | _ => false

/-- The log entries that mark the first model being on screen: its load was
requested, its object was stored in `instances`, and `setActive(0)` made it the
active instance and the only visible one. -/
def firstShown : List Action :=
  [Action.loadRequested 0, Action.stored 0, Action.activated 0 [0]]

/-- Nothing deferred has happened yet: no deferred action is logged, no idle
callback is pending, `loadAll` has not reached its end, and a pending first
load has been requested. -/
def Early (s : State) : Prop :=
  (∀ a ∈ s.log, deferred a = false) ∧ s.envTimer = false ∧ s.nextTimer = false
    ∧ s.phase ≠ Phase.background
    ∧ (s.phase = Phase.first → s.inflight ≠ none → Action.loadRequested 0 ∈ s.log)

/-- The log splits into a part without deferred actions that already contains
`firstShown`, followed by the rest. -/
def Shown (s : State) : Prop :=
  ∃ l1 l2 : List Action,
    s.log = l1 ++ l2 ∧ (∀ a ∈ l1, deferred a = false) ∧ List.Sublist firstShown l1

/-- The ordering invariant of the log. -/
def Staged (s : State) : Prop := Early s ∨ Shown s

/-- The invariant of the loader that keeps `instances` in catalog order: the
sources of `instances` are `0, 1, ..., length - 1`, there are no more instances
than descriptors, nothing is stored while the first load is awaited, a load
and a `loadNext` callback are never pending together, and in the background
phase the outstanding load is the one for the next position while `rest`
holds the descriptors after it, in order. -/
def InOrder (catalog : List Meta) (s : State) : Prop :=
  s.instances.map Instance.src = List.range s.instances.length
    ∧ s.instances.length ≤ catalog.length
    ∧ (s.phase = Phase.first → s.instances = [] ∧ catalog ≠ [])
    ∧ (∀ k : Nat, s.inflight = some k → s.nextTimer = false)
    ∧ (s.phase = Phase.background → ∀ k : Nat, s.inflight = some k →
        k = s.instances.length ∧ k < catalog.length
          ∧ s.rest = List.range' (k + 1) (catalog.length - (k + 1)))
    ∧ (s.phase = Phase.background → s.nextTimer = true →
        s.rest = List.range' s.instances.length (catalog.length - s.instances.length))

/-! ## Camera framing -/

/-- The functions of the JavaScript `Math` object used by the framing code. -/
structure MathFns (F : Type) where
  sin : F → F
  sqrt : F → F
  pi : F

/-- A `THREE.Vector3`. -/
structure Vec3 (F : Type) where
  x : F
  y : F
  z : F
  deriving DecidableEq, Repr

namespace Vec3

variable {F : Type} [LinearOrderedField F]

/-- `Vector3.add`. -/
def add (a b : Vec3 F) : Vec3 F := ⟨a.x + b.x, a.y + b.y, a.z + b.z⟩

/-- `Vector3.multiplyScalar`. -/
def multiplyScalar (a : Vec3 F) (k : F) : Vec3 F := ⟨a.x * k, a.y * k, a.z * k⟩

/-- `Vector3.divideScalar`, which three.js implements as
`multiplyScalar(1 / k)`. -/
def divideScalar (a : Vec3 F) (k : F) : Vec3 F := multiplyScalar a (1 / k)

/-- `Vector3.length`. -/
def length (M : MathFns F) (a : Vec3 F) : F := M.sqrt (a.x * a.x + a.y * a.y + a.z * a.z)

/-- `Vector3.normalize`, that is `divideScalar(length() || 1)`. -/
def normalize (M : MathFns F) (a : Vec3 F) : Vec3 F :=
  divideScalar a (if length M a = 0 then 1 else length M a)

end Vec3

/-- What `frameObject` reads from the object through three.js: whether
`new THREE.Box3().setFromObject(obj)` is empty, and the center and radius of
`box.getBoundingSphere(...)`. -/
structure Bounds (F : Type) where
  isEmpty : Bool
  center : Vec3 F
  radius : F
  deriving DecidableEq, Repr

/-- The fields of the `THREE.PerspectiveCamera` that the viewer uses. -/
structure Camera (F : Type) where
  fov : F
  aspect : F
  near : F
  far : F
  position : Vec3 F
  deriving DecidableEq, Repr

/-- The fields of the `OrbitControls` that `frameObject` uses. -/
structure Controls (F : Type) where
  target : Vec3 F
  minDistance : F
  maxDistance : F
  deriving DecidableEq, Repr

/-- Camera, controls and the tweens started by `gsap.to`: the destination of
each tween on `camera.position` and on `controls.target`, oldest first.  A
tween does not move its subject at the time it is started. -/
structure Rig (F : Type) where
  camera : Camera F
  controls : Controls F
  cameraTweens : List (Vec3 F)
  targetTweens : List (Vec3 F)
  deriving DecidableEq, Repr

section Framing

variable {F : Type} [LinearOrderedField F]

/-- `THREE.MathUtils.degToRad`: multiplication by `Math.PI / 180`. -/
def degToRad (M : MathFns F) (deg : F) : F := deg * (M.pi / 180)

/-- The local `radius` of `frameObject`. -/
def frameRadius (b : Bounds F) : F := max b.radius 0.001

/-- The local `dir` of `frameObject` before it is scaled. -/
def frameDir (M : MathFns F) : Vec3 F := Vec3.normalize M ⟨1, 0.6, 1⟩

/-- The local `distance` of `frameObject`. -/
def frameDistance (M : MathFns F) (cam : Camera F) (b : Bounds F) : F :=
  let fitHeightDistance := frameRadius b / M.sin (degToRad M (cam.fov * 0.5))
  fitHeightDistance * 1.2

/-- The local `newPos` of `frameObject`. -/
def framePosition (M : MathFns F) (cam : Camera F) (b : Bounds F) : Vec3 F :=
  Vec3.add b.center (Vec3.multiplyScalar (frameDir M) (frameDistance M cam b))

/-- The function `frameObject(obj)`, where `b` is what three.js reports about
the bounding volume of `obj`. -/
def frameObject (M : MathFns F) (rig : Rig F) (b : Bounds F) : Rig F :=
  if b.isEmpty then rig
  else
    { camera :=
        { rig.camera with
            near := max (frameRadius b / 100) 0.01
            far := max (frameRadius b * 20) 100 }
      controls :=
        { rig.controls with
            minDistance := frameRadius b * 0.6
            maxDistance := frameRadius b * 6 }
      cameraTweens := rig.cameraTweens ++ [framePosition M rig.camera b]
      targetTweens := rig.targetTweens ++ [b.center] }

/-- The camera as constructed at module level:
`new THREE.PerspectiveCamera(50, aspect, 0.1, 200)` at `(2.4, 1.6, 3.0)`. -/
def initialCamera (aspect : F) : Camera F :=
  { fov := 50, aspect := aspect, near := 0.1, far := 200, position := ⟨2.4, 1.6, 3.0⟩ }

/-- The state of camera and controls after the module-level statements:
`OrbitControls` starts with target `(0, 0, 0)` and `minDistance = 0`; its
initial `maxDistance` (`Infinity` in three.js) is left as a parameter. -/
def initialRig (aspect maxDistance : F) : Rig F :=
  { camera := initialCamera aspect
    controls := { target := ⟨0, 0, 0⟩, minDistance := 0, maxDistance := maxDistance }
    cameraTweens := []
    targetTweens := [] }

/-! ### The framing solution in the words of the specification -/

/-- The distance stated by the specification for a bounding sphere of radius
`r` and a vertical field of view of `fov` degrees: `(r / sin(fov/2)) * 1.2`. -/
def claimedDistance (M : MathFns F) (fov r : F) : F :=
  r / M.sin (degToRad M (fov / 2)) * 1.2

/-- The canonical direction stated by the specification: the vector
`(1, 0.6, 1)` divided by its length. -/
def claimedDirection (M : MathFns F) : Vec3 F :=
  ⟨1 / M.sqrt (1 * 1 + 0.6 * 0.6 + 1 * 1), 0.6 / M.sqrt (1 * 1 + 0.6 * 0.6 + 1 * 1),
    1 / M.sqrt (1 * 1 + 0.6 * 0.6 + 1 * 1)⟩

/-- The camera position stated by the specification: `c + direction * distance`. -/
def claimedPosition (M : MathFns F) (c : Vec3 F) (fov r : F) : Vec3 F :=
  ⟨c.x + (claimedDirection M).x * claimedDistance M fov r,
    c.y + (claimedDirection M).y * claimedDistance M fov r,
    c.z + (claimedDirection M).z * claimedDistance M fov r⟩

end Framing

/-! ## Debounced resize -/

/-- The delay given to `setTimeout` in `onResize`, in milliseconds. -/
def resizeDelay : Nat := 120

/-- What the resize code reads and writes.  Time is counted in whole
milliseconds; a timeout fires when its delay has elapsed, and an event handler
runs at the moment its event arrives. -/
structure ResizeState where
  /-- `wrap.clientWidth`. -/
  clientWidth : Nat
  /-- `wrap.clientHeight`. -/
  clientHeight : Nat
  /-- The timeout whose id is held in `resizeTimer`, while it is pending: the
  milliseconds left until it fires.  `none` when the variable is `undefined`
  or names a timeout that has fired or has been cleared. -/
  resizeTimer : Option Nat
  /-- The pairs `(w, h)` with which `applySize` has run, oldest first. -/
  applied : List (Nat × Nat)
  deriving DecidableEq, Repr

/-- The function `applySize`: it reads the size of the container and passes it
to `renderer.setSize(w, h, false)` and to `camera.aspect = w / h`; the run is
recorded with the size it read. -/
def applySize (s : ResizeState) : ResizeState :=
  { s with applied := s.applied ++ [(s.clientWidth, s.clientHeight)] }

/-- The function `onResize`: `clearTimeout(resizeTimer)` drops the pending
timeout, if any, and `setTimeout(applySize, 120)` starts a new one. -/
def onResize (s : ResizeState) : ResizeState :=
  { s with resizeTimer := some resizeDelay }

/-- What happens to the page as far as resizing goes. -/
inductive ResizeEvent where
  /-- A `resize` event of the window, the container having size `w` by `h`
  from then on. -/
  | resize (w h : Nat)
  /-- `ms` milliseconds pass without a `resize` event. -/
  | wait (ms : Nat)
  deriving DecidableEq, Repr

/-- One resize event, or the passing of time. -/
def resizeStep (s : ResizeState) : ResizeEvent → ResizeState
  | ResizeEvent.resize w h => onResize { s with clientWidth := w, clientHeight := h }
  | ResizeEvent.wait ms =>
    match s.resizeTimer with
    | none => s
    | some left =>
      if left ≤ ms then applySize { s with resizeTimer := none }
      else { s with resizeTimer := some (left - ms) }

/-- The state after a sequence of resize events and waits. -/
def resizeRun (s : ResizeState) (evs : List ResizeEvent) : ResizeState :=
  evs.foldl resizeStep s

/-- The events of a burst after its first one: each entry `(gap, w, h)` is a
`resize` event that arrives `gap` milliseconds after the previous one. -/
def burstTail : List (Nat × Nat × Nat) → List ResizeEvent
  | [] => []
  | (gap, w, h) :: more => ResizeEvent.wait gap :: ResizeEvent.resize w h :: burstTail more

/-- A burst of `1 + more.length` resize events. -/
def burst (w h : Nat) (more : List (Nat × Nat × Nat)) : List ResizeEvent :=
  ResizeEvent.resize w h :: burstTail more

/-- The container size as of the last event of a burst. -/
def burstLastSize (w h : Nat) : List (Nat × Nat × Nat) → Nat × Nat
  | [] => (w, h)
  | (_, w1, h1) :: more => burstLastSize w1 h1 more

/-- The page right after the module-level statements: the container has some
size, no resize timeout is pending (`let resizeTimer;`) and `applySize()` has
run once. -/
def resizeInit (w h : Nat) : ResizeState :=
  applySize { clientWidth := w, clientHeight := h, resizeTimer := none, applied := [] }

end Portfolio

/-! # Properties -/

namespace Portfolio

/-! ## Arithmetic of the wraparound -/

theorem jsMod_shift (i : Int) (k : Nat) (hk : 0 < k) (hi : -(k : Int) ≤ i) :
    Int.tmod (i + k) k = i % k := by
  rw [Int.tmod_eq_emod (by omega) (by omega), Int.add_emod_self]

theorem tmod_gt_neg (i : Int) (k : Nat) (hk : 0 < k) : -(k : Int) < Int.tmod i k := by
  cases i with
  | ofNat m =>
    have : 0 ≤ Int.tmod (Int.ofNat m) k := Int.tmod_nonneg _ (Int.ofNat_nonneg m)
    omega
  | negSucc m =>
    have h : Int.tmod (Int.negSucc m) (k : Int) = -(((m + 1) % k : Nat) : Int) := rfl
    rw [h]
    have := Nat.mod_lt (m + 1) hk
    omega

theorem tmod_emod (i : Int) (k : Nat) : (Int.tmod i k) % (k : Int) = i % k := by
  rw [Int.tmod_def]
  simp [Int.sub_emod]

theorem residue_formula (i : Int) (k : Nat) (hk : 0 < k) :
    Int.tmod (Int.tmod i k + k) k = i % k := by
  have := tmod_gt_neg i k hk
  rw [Int.tmod_eq_emod (by omega) (by omega), Int.add_emod_self, tmod_emod]

/-! ## `setActive` -/

theorem setActive_of_empty (catalog : List Meta) (s : State) (i : Int)
    (h : s.instances.length = 0) : setActive catalog s i = ⟨s, false⟩ := by
  simp [setActive, h]

theorem setActive_activeIndex (catalog : List Meta) (s : State) (i : Int)
    (h : s.instances.length ≠ 0) :
    (setActive catalog s i).state.activeIndex
      = Int.tmod (i + s.instances.length) s.instances.length := by
  unfold setActive
  simp only [h, if_false]
  split
  · rfl
  · split <;> rfl

theorem setActive_instances (catalog : List Meta) (s : State) (i : Int)
    (h : s.instances.length ≠ 0) :
    (setActive catalog s i).state.instances
      = showOnly s.instances (Int.tmod (i + s.instances.length) s.instances.length) := by
  unfold setActive
  simp only [h, if_false]
  split
  · rfl
  · split <;> rfl

theorem handler_activeIndex (o : Outcome) : (handler o).activeIndex = o.state.activeIndex := by
  unfold handler
  split <;> rfl

theorem handler_instances (o : Outcome) : (handler o).instances = o.state.instances := by
  unfold handler
  split <;> rfl

theorem showOnly_length (xs : List Instance) (a : Int) : (showOnly xs a).length = xs.length := by
  simp [showOnly]

theorem showOnly_visible_iff (xs : List Instance) (a : Int) (idx : Nat) (ins : Instance)
    (h : (showOnly xs a)[idx]? = some ins) : (ins.visible = true ↔ (idx : Int) = a) := by
  obtain ⟨hlt, heq⟩ := List.getElem?_eq_some.mp h
  simp only [showOnly, List.getElem_mapIdx] at heq
  subst heq
  simp

/-- C1 (amended): with `n ≥ 1` loaded instances, `i ≥ -n` and `i + n ≤ 2 ^ 53`
(so that the addition `i + n` is exact in double precision), `setActive(i)`
leaves `activeIndex` equal to the value of the formula `((i mod n) + n) mod n`
(here with the truncating remainder of JavaScript), which is the residue of `i`
in `[0, n)`. -/
theorem setActive_index_residue (catalog : List Meta) (s : State) (i : Int)
    (hn : 1 ≤ s.instances.length) (hi : -(s.instances.length : Int) ≤ i)
    (hsafe : i + (s.instances.length : Int) ≤ maxExactInteger) :
    (setActive catalog s i).state.activeIndex
        = Int.tmod (Int.tmod i s.instances.length + s.instances.length) s.instances.length
      ∧ (setActive catalog s i).state.activeIndex = i % (s.instances.length : Int)
      ∧ 0 ≤ (setActive catalog s i).state.activeIndex
      ∧ (setActive catalog s i).state.activeIndex < s.instances.length := by
  have _ := hsafe
  have hne : s.instances.length ≠ 0 := by omega
  have hpos : (0 : Int) < s.instances.length := by omega
  rw [setActive_activeIndex catalog s i hne, residue_formula i _ (by omega),
    jsMod_shift i _ (by omega) hi]
  exact ⟨rfl, rfl, Int.emod_nonneg _ (by omega), Int.emod_lt_of_pos _ hpos⟩

/-- Witness for C1: both models loaded and `i = -2`, the least admitted index. -/
theorem setActive_index_residue_witness :
    1 ≤ twoLoaded.instances.length ∧ -(twoLoaded.instances.length : Int) ≤ -2
      ∧ (-2 : Int) + (twoLoaded.instances.length : Int) ≤ maxExactInteger ∧
    ((setActive MODELS twoLoaded (-2)).state.activeIndex
        = Int.tmod (Int.tmod (-2) twoLoaded.instances.length + twoLoaded.instances.length)
            twoLoaded.instances.length
      ∧ (setActive MODELS twoLoaded (-2)).state.activeIndex
        = (-2) % (twoLoaded.instances.length : Int)
      ∧ 0 ≤ (setActive MODELS twoLoaded (-2)).state.activeIndex
      ∧ (setActive MODELS twoLoaded (-2)).state.activeIndex < twoLoaded.instances.length) :=
  ⟨by decide, by decide, by decide,
    setActive_index_residue MODELS twoLoaded (-2) (by decide) (by decide) (by decide)⟩

/-- C1 as stated fails: with two loaded instances `setActive(-3)` computes
`(-3 + 2) % 2 = -1`, whereas the residue of `-3` modulo `2` is `1`. -/
theorem setActive_index_counterexample :
    twoLoaded.instances.length = 2
      ∧ (setActive MODELS twoLoaded (-3)).state.activeIndex = -1
      ∧ Int.tmod (Int.tmod (-3) 2 + 2) 2 = 1
      ∧ ((-3 : Int) % 2 + 2) % 2 = 1
      ∧ (setActive MODELS twoLoaded (-3)).state.activeIndex
          ≠ Int.tmod (Int.tmod (-3) twoLoaded.instances.length + twoLoaded.instances.length)
              twoLoaded.instances.length := by
  decide

/-- C2 (amended): with `n ≥ 1` loaded instances and `i ≥ -n`, after
`setActive(i)` the number of instances is unchanged, `activeIndex` is a valid
index, and an instance is visible exactly when its position is `activeIndex`. -/
theorem setActive_exclusive_visibility (catalog : List Meta) (s : State) (i : Int)
    (hn : 1 ≤ s.instances.length) (hi : -(s.instances.length : Int) ≤ i) :
    (setActive catalog s i).state.instances.length = s.instances.length
      ∧ 0 ≤ (setActive catalog s i).state.activeIndex
      ∧ (setActive catalog s i).state.activeIndex < s.instances.length
      ∧ ∀ (idx : Nat) (ins : Instance),
          (setActive catalog s i).state.instances[idx]? = some ins →
            (ins.visible = true ↔ (idx : Int) = (setActive catalog s i).state.activeIndex) := by
  have hne : s.instances.length ≠ 0 := by omega
  have hpos : (0 : Int) < s.instances.length := by omega
  rw [setActive_activeIndex catalog s i hne, setActive_instances catalog s i hne,
    jsMod_shift i _ (by omega) hi]
  refine ⟨showOnly_length _ _, Int.emod_nonneg _ (by omega), Int.emod_lt_of_pos _ hpos, ?_⟩
  intro idx ins h
  exact showOnly_visible_iff _ _ idx ins h

/-- Witness for C2: both models loaded and `i = -1` (the previous action at
index `0`). -/
theorem setActive_exclusive_visibility_witness :
    1 ≤ twoLoaded.instances.length ∧ -(twoLoaded.instances.length : Int) ≤ -1 ∧
    ((setActive MODELS twoLoaded (-1)).state.instances.length = twoLoaded.instances.length
      ∧ 0 ≤ (setActive MODELS twoLoaded (-1)).state.activeIndex
      ∧ (setActive MODELS twoLoaded (-1)).state.activeIndex < twoLoaded.instances.length
      ∧ ∀ (idx : Nat) (ins : Instance),
          (setActive MODELS twoLoaded (-1)).state.instances[idx]? = some ins →
            (ins.visible = true
              ↔ (idx : Int) = (setActive MODELS twoLoaded (-1)).state.activeIndex)) :=
  ⟨by decide, by decide,
    setActive_exclusive_visibility MODELS twoLoaded (-1) (by decide) (by decide)⟩

/-- C2 as stated fails: with two loaded instances, `setActive(-3)` sets
`activeIndex = -1`, so the comparison `idx === activeIndex` is false for both
instances and none is visible. -/
theorem setActive_exclusive_visibility_counterexample :
    twoLoaded.instances.length = 2
      ∧ (setActive MODELS twoLoaded (-3)).state.instances.map Instance.visible
          = [false, false] := by
  decide

/-- C8: with `n ≥ 1` loaded instances, the previous action (button or left
arrow) at index `0` selects `n - 1`, and the next action (button or right
arrow) at index `n - 1` selects `0`. -/
theorem prev_next_wrap (catalog : List Meta) (s : State) (hn : 1 ≤ s.instances.length) :
    (s.activeIndex = 0 →
        (step catalog s Event.prevClick).activeIndex = (s.instances.length : Int) - 1
          ∧ (step catalog s Event.arrowLeft).activeIndex = (s.instances.length : Int) - 1)
      ∧ (s.activeIndex = (s.instances.length : Int) - 1 →
        (step catalog s Event.nextClick).activeIndex = 0
          ∧ (step catalog s Event.arrowRight).activeIndex = 0) := by
  have hne : s.instances.length ≠ 0 := by omega
  constructor
  · intro h0
    have key : (setActive catalog s (s.activeIndex - 1)).state.activeIndex
        = (s.instances.length : Int) - 1 := by
      rw [setActive_activeIndex catalog s _ hne, h0]
      have e : (0 : Int) - 1 + s.instances.length = (s.instances.length : Int) - 1 := by omega
      rw [e]
      exact Int.tmod_eq_of_lt (by omega) (by omega)
    exact ⟨by simp only [step, handler_activeIndex, key],
      by simp only [step, handler_activeIndex, key]⟩
  · intro hl
    have key : (setActive catalog s (s.activeIndex + 1)).state.activeIndex = 0 := by
      rw [setActive_activeIndex catalog s _ hne, hl]
      have e : (s.instances.length : Int) - 1 + 1 + s.instances.length
          = 2 * (s.instances.length : Int) := by omega
      rw [e]
      exact Int.mul_tmod_left 2 _
    exact ⟨by simp only [step, handler_activeIndex, key],
      by simp only [step, handler_activeIndex, key]⟩

/-- Witness for C8: both models of `MODELS` loaded. -/
theorem prev_next_wrap_witness :
    1 ≤ twoLoaded.instances.length ∧
    ((twoLoaded.activeIndex = 0 →
        (step MODELS twoLoaded Event.prevClick).activeIndex
            = (twoLoaded.instances.length : Int) - 1
          ∧ (step MODELS twoLoaded Event.arrowLeft).activeIndex
            = (twoLoaded.instances.length : Int) - 1)
      ∧ (twoLoaded.activeIndex = (twoLoaded.instances.length : Int) - 1 →
        (step MODELS twoLoaded Event.nextClick).activeIndex = 0
          ∧ (step MODELS twoLoaded Event.arrowRight).activeIndex = 0)) :=
  ⟨by decide, prev_next_wrap MODELS twoLoaded (by decide)⟩


/-! ## The selection invariant -/

theorem setActive_phase (catalog : List Meta) (s : State) (i : Int) :
    (setActive catalog s i).state.phase = s.phase := by
  by_cases h : s.instances.length = 0
  · rw [setActive_of_empty catalog s i h]
  · unfold setActive
    simp only [h, if_false]
    split
    · rfl
    · split <;> rfl

theorem handler_phase (o : Outcome) : (handler o).phase = o.state.phase := by
  unfold handler
  split <;> rfl

theorem Inv_congr {s t : State} (hi : t.instances = s.instances)
    (ha : t.activeIndex = s.activeIndex) (hp : t.phase = s.phase) (h : Inv s) : Inv t := by
  unfold Inv at *
  rw [hi, ha, hp]
  exact h

theorem Inv_showOnly {s t : State} (k : Nat) (hk : k < s.instances.length)
    (hi : t.instances = showOnly s.instances k) (ha : t.activeIndex = k) : Inv t := by
  unfold Inv
  rw [hi, ha]
  refine ⟨fun _ => ⟨by omega, ?_⟩, ?_, ?_⟩
  · rw [showOnly_length]; exact_mod_cast hk
  · intro idx ins h hv
    exact (showOnly_visible_iff _ _ idx ins h).mp hv
  · intro _ hnil
    have := congrArg List.length hnil
    rw [showOnly_length, List.length_nil] at this
    omega

theorem Inv_setActive (catalog : List Meta) (s : State) (i : Int) (h : Inv s)
    (hi : s.instances ≠ [] → -(s.instances.length : Int) ≤ i) :
    Inv (setActive catalog s i).state := by
  by_cases he : s.instances.length = 0
  · rw [setActive_of_empty catalog s i he]; exact h
  · have hne : s.instances ≠ [] := by
      intro hnil; rw [hnil] at he; exact he rfl
    have hpos : 0 < s.instances.length := by omega
    have hres := jsMod_shift i _ hpos (hi hne)
    have h0 : 0 ≤ i % (s.instances.length : Int) := Int.emod_nonneg _ (by omega)
    have h1 : i % (s.instances.length : Int) < s.instances.length :=
      Int.emod_lt_of_pos _ (by omega)
    refine Inv_showOnly (s := s) (i % (s.instances.length : Int)).toNat (by omega) ?_ ?_
    · rw [setActive_instances catalog s i he, hres, Int.toNat_of_nonneg h0]
    · rw [setActive_activeIndex catalog s i he, hres, Int.toNat_of_nonneg h0]

theorem Inv_handler_setActive (catalog : List Meta) (s : State) (i : Int) (h : Inv s)
    (hi : s.instances ≠ [] → -(s.instances.length : Int) ≤ i) :
    Inv (handler (setActive catalog s i)) :=
  Inv_congr (handler_instances _) (handler_activeIndex _) (handler_phase _)
    (Inv_setActive catalog s i h hi)


theorem setFirst_length_pos (xs : List Instance) (x : Instance) : 0 < (setFirst xs x).length := by
  cases xs <;> simp [setFirst]

theorem loadAllResume_core (catalog : List Meta) (s : State) :
    (loadAllResume catalog s).instances = showOnly (setFirst s.instances ⟨0, false⟩) 0
      ∧ (loadAllResume catalog s).activeIndex = 0 := by
  have hpos := setFirst_length_pos s.instances ⟨0, false⟩
  have hne : ({ s with instances := setFirst s.instances ⟨0, false⟩
                       log := s.log ++ [Action.stored 0] } : State).instances.length ≠ 0 := by
    show (setFirst s.instances ⟨0, false⟩).length ≠ 0
    omega
  have hi := setActive_instances catalog _ 0 hne
  have ha := setActive_activeIndex catalog _ 0 hne
  simp only [Int.zero_add, Int.tmod_self] at hi ha
  unfold loadAllResume
  dsimp only
  split
  · exact ⟨hi, ha⟩
  · exact ⟨hi, ha⟩

theorem Inv_loadAllResume (catalog : List Meta) (s : State) : Inv (loadAllResume catalog s) := by
  obtain ⟨hi, ha⟩ := loadAllResume_core catalog s
  exact Inv_showOnly (s := { s with instances := setFirst s.instances ⟨0, false⟩ }) 0
    (setFirst_length_pos _ _) hi ha

theorem Inv_onRestLoaded (s : State) (k : Nat) (h : Inv s) (hp : s.phase = Phase.background) :
    Inv (onRestLoaded s k) := by
  obtain ⟨h1, h2, h3⟩ := h
  have hne := h3 hp
  obtain ⟨h0, hlt⟩ := h1 hne
  refine ⟨fun _ => ⟨h0, ?_⟩, ?_, fun _ => ?_⟩
  · simp only [onRestLoaded, List.length_append, List.length_singleton]
    push_cast
    omega
  · intro idx ins hget hv
    simp only [onRestLoaded] at hget
    by_cases hidx : idx < s.instances.length
    · rw [List.getElem?_append_left hidx] at hget
      exact h2 idx ins hget hv
    · rw [List.getElem?_append_right (by omega)] at hget
      have : idx - s.instances.length = 0 ∨ 0 < idx - s.instances.length := by omega
      rcases this with e | e
      · rw [e] at hget
        simp at hget
        subst hget
        simp at hv
      · rw [List.getElem?_eq_none (by simp; omega)] at hget
        cases hget
  · simp [onRestLoaded]

theorem Inv_step (catalog : List Meta) (s : State) (e : Event) (h : Inv s) :
    Inv (step catalog s e) := by
  have hnav : ∀ d : Int, -1 ≤ d →
      (s.instances ≠ [] → -(s.instances.length : Int) ≤ s.activeIndex + d) := by
    intro d hd hne
    have := (h.1 hne).1
    have : 0 < s.instances.length := List.length_pos.mpr hne
    omega
  cases e with
  | loadResolved =>
    simp only [step]
    split
    · exact h
    · split
      · exact Inv_loadAllResume catalog _
      · rename_i hp
        exact Inv_onRestLoaded _ _ (Inv_congr rfl rfl rfl h) hp
      · exact h
  | loadRejected =>
    simp only [step]
    split
    · exact h
    · split
      · exact ⟨h.1, h.2.1, fun hp => by cases hp⟩
      · exact Inv_congr rfl rfl rfl h
      · exact h
  | idleEnv =>
    simp only [step]
    split
    · exact Inv_congr rfl rfl rfl h
    · exact h
  | idleNext =>
    simp only [step]
    split
    · unfold loadNext
      split
      · exact Inv_congr rfl rfl rfl h
      · exact Inv_congr rfl rfl rfl h
    · exact h
  | envSettled =>
    simp only [step]
    split
    · exact Inv_congr rfl rfl rfl h
    · exact h
  | prevClick =>
    exact Inv_handler_setActive catalog s _ h (by simpa [sub_eq_add_neg] using hnav (-1) (by omega))
  | nextClick => exact Inv_handler_setActive catalog s _ h (hnav 1 (by omega))
  | arrowLeft =>
    exact Inv_handler_setActive catalog s _ h (by simpa [sub_eq_add_neg] using hnav (-1) (by omega))
  | arrowRight => exact Inv_handler_setActive catalog s _ h (hnav 1 (by omega))
  | dotClick i =>
    simp only [step]
    split
    · exact Inv_handler_setActive catalog s _ h (fun _ => by omega)
    · exact h

theorem Inv_init (catalog : List Meta) : Inv (init catalog) := by
  unfold init loadAll
  cases catalog with
  | nil => exact ⟨fun hne => absurd rfl hne, fun idx ins hget _ => by simp [blank] at hget,
      fun hp => by cases hp⟩
  | cons m ms => exact ⟨fun hne => absurd rfl hne, fun idx ins hget _ => by simp [blank] at hget,
      fun hp => by cases hp⟩

theorem Inv_runFrom (catalog : List Meta) (evs : List Event) :
    ∀ s : State, Inv s → Inv (runFrom catalog s evs) := by
  induction evs with
  | nil => intro s h; exact h
  | cons e es ih =>
    intro s h
    exact ih (step catalog s e) (Inv_step catalog s e h)


theorem countP_visible_le_one (xs : List Instance)
    (h : ∀ (i j : Nat) (a b : Instance), xs[i]? = some a → xs[j]? = some b →
      a.visible = true → b.visible = true → i = j) :
    xs.countP (fun ins => ins.visible) ≤ 1 := by
  induction xs with
  | nil => simp
  | cons x tl ih =>
    have htl : ∀ (i j : Nat) (a b : Instance), tl[i]? = some a → tl[j]? = some b →
        a.visible = true → b.visible = true → i = j := by
      intro i j a b hi hj ha hb
      have := h (i + 1) (j + 1) a b (by simpa using hi) (by simpa using hj) ha hb
      omega
    by_cases hx : x.visible = true
    · have hz : tl.countP (fun ins => ins.visible) = 0 := by
        rw [List.countP_eq_zero]
        intro a hmem hva
        obtain ⟨j, hj⟩ := List.getElem?_of_mem hmem
        have := h 0 (j + 1) x a (by simp) (by simpa using hj) hx hva
        omega
      rw [List.countP_cons_of_pos _ _ hx, hz]
    · rw [List.countP_cons_of_neg _ _ hx]
      exact ih htl

/-- C7: in every reachable state with a non-empty `instances`, `activeIndex` is
a valid index and at most one instance is visible. -/
theorem reachable_selection_valid (catalog : List Meta) (s : State)
    (hr : Reachable catalog s) (hne : s.instances ≠ []) :
    0 ≤ s.activeIndex ∧ s.activeIndex < s.instances.length
      ∧ (∀ (i j : Nat) (a b : Instance), s.instances[i]? = some a → s.instances[j]? = some b →
          a.visible = true → b.visible = true → i = j)
      ∧ s.instances.countP (fun ins => ins.visible) ≤ 1 := by
  obtain ⟨evs, rfl⟩ := hr
  have hinv : Inv (run catalog evs) := Inv_runFrom catalog evs _ (Inv_init catalog)
  have huniq : ∀ (i j : Nat) (a b : Instance), (run catalog evs).instances[i]? = some a →
      (run catalog evs).instances[j]? = some b → a.visible = true → b.visible = true → i = j := by
    intro i j a b hi hj ha hb
    have e1 := hinv.2.1 i a hi ha
    have e2 := hinv.2.1 j b hj hb
    omega
  exact ⟨(hinv.1 hne).1, (hinv.1 hne).2, huniq, countP_visible_le_one _ huniq⟩

/-- Witness for C7: the state with both models of `MODELS` loaded. -/
theorem reachable_selection_valid_witness :
    Reachable MODELS twoLoaded ∧ twoLoaded.instances ≠ [] ∧
    (0 ≤ twoLoaded.activeIndex ∧ twoLoaded.activeIndex < twoLoaded.instances.length
      ∧ (∀ (i j : Nat) (a b : Instance), twoLoaded.instances[i]? = some a →
          twoLoaded.instances[j]? = some b → a.visible = true → b.visible = true → i = j)
      ∧ twoLoaded.instances.countP (fun ins => ins.visible) ≤ 1) :=
  ⟨⟨_, rfl⟩, by decide, reachable_selection_valid MODELS twoLoaded ⟨_, rfl⟩ (by decide)⟩

/-! ## Order of the deferred work -/

theorem setActive_frame (catalog : List Meta) (s : State) (i : Int) :
    (setActive catalog s i).state.envTimer = s.envTimer
      ∧ (setActive catalog s i).state.nextTimer = s.nextTimer
      ∧ (setActive catalog s i).state.inflight = s.inflight
      ∧ (setActive catalog s i).state.rest = s.rest := by
  by_cases h : s.instances.length = 0
  · rw [setActive_of_empty catalog s i h]
    exact ⟨rfl, rfl, rfl, rfl⟩
  · unfold setActive
    simp only [h, if_false]
    split
    · exact ⟨rfl, rfl, rfl, rfl⟩
    · split <;> exact ⟨rfl, rfl, rfl, rfl⟩

theorem setActive_log (catalog : List Meta) (s : State) (i : Int)
    (h : s.instances.length ≠ 0) :
    ∃ ext : List Action,
      (setActive catalog s i).state.log
          = s.log ++ Action.activated (Int.tmod (i + s.instances.length) s.instances.length)
              (visibleSrcs (showOnly s.instances
                (Int.tmod (i + s.instances.length) s.instances.length))) :: ext
        ∧ ∀ a ∈ ext, deferred a = false := by
  unfold setActive
  simp only [h, if_false]
  split
  · exact ⟨[], by simp, by simp⟩
  · split
    · exact ⟨[Action.uiShown (Int.tmod (i + s.instances.length) s.instances.length)],
        by simp, by simp [deferred]⟩
    · rename_i ins _
      exact ⟨[Action.uiShown (Int.tmod (i + s.instances.length) s.instances.length),
        Action.framed ins.src], by simp, by simp [deferred]⟩

theorem setActive_log_mono (catalog : List Meta) (s : State) (i : Int) :
    ∃ ext : List Action,
      (setActive catalog s i).state.log = s.log ++ ext ∧ ∀ a ∈ ext, deferred a = false := by
  by_cases h : s.instances.length = 0
  · rw [setActive_of_empty catalog s i h]
    exact ⟨[], by simp, by simp⟩
  · obtain ⟨ext, he, hd⟩ := setActive_log catalog s i h
    refine ⟨_ :: ext, he, ?_⟩
    intro a ha
    rcases List.mem_cons.mp ha with rfl | ha
    · rfl
    · exact hd a ha

theorem handler_log (o : Outcome) : (handler o).log = o.state.log := by
  unfold handler
  split <;> rfl

theorem handler_frame (o : Outcome) :
    (handler o).envTimer = o.state.envTimer ∧ (handler o).nextTimer = o.state.nextTimer
      ∧ (handler o).inflight = o.state.inflight ∧ (handler o).rest = o.state.rest := by
  unfold handler
  split <;> exact ⟨rfl, rfl, rfl, rfl⟩

theorem visibleSrcs_showOnly_zero (x : Instance) (tl : List Instance) :
    visibleSrcs (showOnly (x :: tl) 0) = [x.src] := by
  unfold visibleSrcs showOnly
  rw [List.mapIdx_cons]
  have htl : (List.mapIdx (fun (i : Nat) (ins : Instance) =>
      ({ ins with visible := decide (((i + 1 : Nat) : Int) = 0) } : Instance)) tl).filter
        (fun ins => ins.visible) = [] := by
    rw [List.filter_eq_nil_iff]
    intro a ha
    obtain ⟨j, hj, rfl⟩ := List.getElem_of_mem ha
    rw [List.getElem_mapIdx]
    simp
    omega
  simp only [Nat.cast_zero, decide_True, List.filter_cons_of_pos, htl, List.map_cons, List.map_nil]

theorem setFirst_cons (xs : List Instance) (x : Instance) :
    ∃ tl : List Instance, setFirst xs x = x :: tl := by
  cases xs with
  | nil => exact ⟨[], rfl⟩
  | cons y ys => exact ⟨ys, rfl⟩

theorem setActive_zero_log (catalog : List Meta) (t : State) (x : Instance)
    (tl : List Instance) (ht : t.instances = x :: tl) :
    ∃ ext : List Action,
      (setActive catalog t 0).state.log = t.log ++ Action.activated 0 [x.src] :: ext
        ∧ ∀ a ∈ ext, deferred a = false := by
  have hne : t.instances.length ≠ 0 := by rw [ht]; simp
  obtain ⟨ext, hlog, hext⟩ := setActive_log catalog t 0 hne
  rw [ht] at hlog
  simp only [Int.zero_add, Int.tmod_self, visibleSrcs_showOnly_zero] at hlog
  exact ⟨ext, hlog, hext⟩

/-- Shape of the log written by the continuation of `loadAll`. -/
theorem loadAllResume_log (catalog : List Meta) (s : State) :
    ∃ ext : List Action, (∀ a ∈ ext, deferred a = false) ∧
      (((loadAllResume catalog s).log
            = s.log ++ (Action.stored 0 :: Action.activated 0 [0] :: ext)
          ∧ (loadAllResume catalog s).phase = Phase.failed
          ∧ (loadAllResume catalog s).envTimer = s.envTimer
          ∧ (loadAllResume catalog s).nextTimer = s.nextTimer)
        ∨ (loadAllResume catalog s).log
            = (s.log ++ (Action.stored 0 :: Action.activated 0 [0] :: ext))
                ++ [Action.framed 0, Action.loadingHidden, Action.envScheduled,
                    Action.nextScheduled]) := by
  obtain ⟨tl, htl⟩ := setFirst_cons s.instances ⟨0, false⟩
  obtain ⟨ext, hlog, hext⟩ := setActive_zero_log catalog
    ({ s with instances := setFirst s.instances ⟨0, false⟩
              log := s.log ++ [Action.stored 0] } : State) ⟨0, false⟩ tl htl
  obtain ⟨het, hnt, _, _⟩ := setActive_frame catalog
    ({ s with instances := setFirst s.instances ⟨0, false⟩
              log := s.log ++ [Action.stored 0] } : State) 0
  simp only [List.append_assoc, List.singleton_append] at hlog
  refine ⟨ext, hext, ?_⟩
  unfold loadAllResume
  dsimp only
  split
  · left
    exact ⟨hlog, rfl, het, hnt⟩
  · right
    show _ ++ _ = _
    rw [hlog]

theorem step_log_mono (catalog : List Meta) (s : State) (e : Event) :
    ∃ ext : List Action, (step catalog s e).log = s.log ++ ext := by
  have hset : ∀ i : Int, ∃ ext : List Action,
      (handler (setActive catalog s i)).log = s.log ++ ext := by
    intro i
    obtain ⟨ext, he, _⟩ := setActive_log_mono catalog s i
    exact ⟨ext, by rw [handler_log, he]⟩
  cases e with
  | loadResolved =>
    simp only [step]
    split
    · exact ⟨[], by simp⟩
    · split
      · obtain ⟨ext, _, h | h⟩ := loadAllResume_log catalog { s with inflight := none }
        · exact ⟨_, h.1⟩
        · exact ⟨_, by rw [h, List.append_assoc]⟩
      · exact ⟨_, rfl⟩
      · exact ⟨[], by simp⟩
  | loadRejected =>
    simp only [step]
    split
    · exact ⟨[], by simp⟩
    · split
      · exact ⟨_, rfl⟩
      · exact ⟨_, rfl⟩
      · exact ⟨[], by simp⟩
  | idleEnv =>
    simp only [step]
    split
    · exact ⟨_, rfl⟩
    · exact ⟨[], by simp⟩
  | idleNext =>
    simp only [step]
    split
    · unfold loadNext
      split
      · exact ⟨[], by simp⟩
      · exact ⟨_, rfl⟩
    · exact ⟨[], by simp⟩
  | envSettled =>
    simp only [step]
    split
    · exact ⟨[], by simp⟩
    · exact ⟨[], by simp⟩
  | prevClick => exact hset _
  | nextClick => exact hset _
  | arrowLeft => exact hset _
  | arrowRight => exact hset _
  | dotClick i =>
    simp only [step]
    split
    · exact hset _
    · exact ⟨[], by simp⟩

theorem Shown_extend {s t : State} (h : Shown s) (hlog : ∃ ext : List Action, t.log = s.log ++ ext) :
    Shown t := by
  obtain ⟨l1, l2, hl, hd, hsub⟩ := h
  obtain ⟨ext, he⟩ := hlog
  exact ⟨l1, l2 ++ ext, by rw [he, hl, List.append_assoc], hd, hsub⟩

theorem Early_extend {s t : State} (h : Early s)
    (hlog : ∃ ext : List Action, t.log = s.log ++ ext ∧ ∀ a ∈ ext, deferred a = false)
    (het : t.envTimer = s.envTimer) (hnt : t.nextTimer = s.nextTimer)
    (hp : t.phase = s.phase ∨ t.phase = Phase.failed)
    (hin : t.phase = Phase.first → t.inflight ≠ none →
      s.phase = Phase.first ∧ s.inflight ≠ none) : Early t := by
  obtain ⟨hd, h1, h2, h3, h4⟩ := h
  obtain ⟨ext, he, hext⟩ := hlog
  refine ⟨?_, by rw [het, h1], by rw [hnt, h2], ?_, ?_⟩
  · intro a ha
    rw [he] at ha
    rcases List.mem_append.mp ha with ha | ha
    · exact hd a ha
    · exact hext a ha
  · rcases hp with hp | hp
    · rw [hp]; exact h3
    · rw [hp]; intro hc; cases hc
  · intro hf hi
    obtain ⟨hf', hi'⟩ := hin hf hi
    rw [he]
    exact List.mem_append_left _ (h4 hf' hi')

theorem Early_handler_setActive (catalog : List Meta) (s : State) (i : Int) (h : Early s) :
    Early (handler (setActive catalog s i)) := by
  obtain ⟨ext, he, hext⟩ := setActive_log_mono catalog s i
  obtain ⟨f1, f2, f3, _⟩ := setActive_frame catalog s i
  obtain ⟨g1, g2, g3, _⟩ := handler_frame (setActive catalog s i)
  refine Early_extend h ⟨ext, by rw [handler_log, he], hext⟩ (by rw [g1, f1]) (by rw [g2, f2])
    (Or.inl (by rw [handler_phase, setActive_phase])) ?_
  intro hf hi
  rw [handler_phase, setActive_phase] at hf
  rw [g3, f3] at hi
  exact ⟨hf, hi⟩

theorem Staged_loadAllResume (catalog : List Meta) (s : State)
    (hd : ∀ a ∈ s.log, deferred a = false) (het : s.envTimer = false)
    (hnt : s.nextTimer = false) (hreq : Action.loadRequested 0 ∈ s.log) :
    Staged (loadAllResume catalog s) := by
  obtain ⟨ext, hext, h | h⟩ := loadAllResume_log catalog s
  · obtain ⟨hl, hp, e1, e2⟩ := h
    left
    refine ⟨?_, by rw [e1, het], by rw [e2, hnt], (by rw [hp]; intro hc; cases hc), ?_⟩
    · intro a ha
      rw [hl] at ha
      rcases List.mem_append.mp ha with ha | ha
      · exact hd a ha
      · rcases List.mem_cons.mp ha with rfl | ha
        · rfl
        · rcases List.mem_cons.mp ha with rfl | ha
          · rfl
          · exact hext a ha
    · intro hf; rw [hp] at hf; cases hf
  · right
    refine ⟨_, _, h, ?_, ?_⟩
    · intro a ha
      rcases List.mem_append.mp ha with ha | ha
      · exact hd a ha
      · rcases List.mem_cons.mp ha with rfl | ha
        · rfl
        · rcases List.mem_cons.mp ha with rfl | ha
          · rfl
          · exact hext a ha
    · have h1 : List.Sublist [Action.loadRequested 0] s.log := List.singleton_sublist.mpr hreq
      have h2 : List.Sublist [Action.stored 0, Action.activated 0 [0]]
          (Action.stored 0 :: Action.activated 0 [0] :: ext) :=
        (List.Sublist.cons₂ _ (List.Sublist.cons₂ _ (List.nil_sublist _)))
      exact List.Sublist.append h1 h2

theorem Staged_step (catalog : List Meta) (s : State) (e : Event) (h : Staged s) :
    Staged (step catalog s e) := by
  rcases h with hA | hB
  · cases e with
    | loadResolved =>
      simp only [step]
      split
      · exact Or.inl hA
      · rename_i k hk
        split
        · rename_i hp
          exact Staged_loadAllResume catalog _ hA.1 hA.2.1 hA.2.2.1
            (hA.2.2.2.2 hp (by rw [hk]; simp))
        · rename_i hp
          exact absurd hp hA.2.2.2.1
        · exact Or.inl hA
    | loadRejected =>
      simp only [step]
      split
      · exact Or.inl hA
      · split
        · exact Or.inl (Early_extend hA ⟨_, rfl, by simp [deferred]⟩ rfl rfl (Or.inr rfl)
            (fun hf => by cases hf))
        · rename_i hp
          exact absurd hp hA.2.2.2.1
        · exact Or.inl hA
    | idleEnv =>
      simp only [step]
      split
      · rename_i ht
        rw [hA.2.1] at ht
        cases ht
      · exact Or.inl hA
    | idleNext =>
      simp only [step]
      split
      · rename_i ht
        rw [hA.2.2.1] at ht
        cases ht
      · exact Or.inl hA
    | envSettled =>
      simp only [step]
      split
      · exact Or.inl (Early_extend hA ⟨[], by simp, by simp⟩ rfl rfl (Or.inl rfl)
          (fun hf hi => ⟨hf, hi⟩))
      · exact Or.inl hA
    | prevClick => exact Or.inl (Early_handler_setActive catalog s _ hA)
    | nextClick => exact Or.inl (Early_handler_setActive catalog s _ hA)
    | arrowLeft => exact Or.inl (Early_handler_setActive catalog s _ hA)
    | arrowRight => exact Or.inl (Early_handler_setActive catalog s _ hA)
    | dotClick i =>
      simp only [step]
      split
      · exact Or.inl (Early_handler_setActive catalog s _ hA)
      · exact Or.inl hA
  · exact Or.inr (Shown_extend hB (step_log_mono catalog s e))

theorem Staged_init (catalog : List Meta) : Staged (init catalog) := by
  left
  unfold init loadAll
  cases catalog with
  | nil =>
    exact ⟨by simp [blank], rfl, rfl, by simp, by simp⟩
  | cons m ms =>
    exact ⟨by simp [blank, deferred], rfl, rfl, by simp, by simp [blank]⟩

theorem Staged_runFrom (catalog : List Meta) (evs : List Event) :
    ∀ s : State, Staged s → Staged (runFrom catalog s evs) := by
  induction evs with
  | nil => intro s h; exact h
  | cons e es ih =>
    intro s h
    exact ih (step catalog s e) (Staged_step catalog s e h)

theorem Staged_ordered {s : State} (h : Staged s) (pre : List Action) (a : Action)
    (post : List Action) (hlog : s.log = pre ++ a :: post) (hd : deferred a = true) :
    List.Sublist firstShown pre := by
  rcases h with hA | ⟨l1, l2, hl, hnd, hsub⟩
  · have := hA.1 a (by rw [hlog]; simp)
    rw [this] at hd
    cases hd
  · rw [hl] at hlog
    rcases List.append_eq_append_iff.mp hlog with ⟨m, hm, _⟩ | ⟨m, hm, hm2⟩
    · rw [hm]
      exact hsub.trans (List.sublist_append_left _ _)
    · cases m with
      | nil =>
        simp only [List.append_nil] at hm
        rw [← hm]; exact hsub
      | cons b m' =>
        simp only [List.cons_append, List.cons.injEq] at hm2
        have : deferred a = false := hnd a (by rw [hm, hm2.1]; simp)
        rw [this] at hd
        cases hd

/-- C9: in every execution, an action that `loadAll` defers (scheduling or
requesting the environment map, scheduling `loadNext`, requesting the load of
a descriptor other than the first) is preceded in the log by the request of
descriptor 0, the storing of its object in `instances` and the `setActive(0)`
that left exactly that object visible. -/
theorem deferred_after_first_shown (catalog : List Meta) (evs : List Event)
    (pre : List Action) (a : Action) (post : List Action)
    (hlog : (run catalog evs).log = pre ++ a :: post) (hd : deferred a = true) :
    List.Sublist [Action.loadRequested 0, Action.stored 0, Action.activated 0 [0]] pre :=
  Staged_ordered (Staged_runFrom catalog evs _ (Staged_init catalog)) pre a post hlog hd

/-- Witness for C9: after the first load and the first `loadNext` callback on
`MODELS`, the last log entry is the request for descriptor 1. -/
theorem deferred_after_first_shown_witness :
    (run MODELS [Event.loadResolved, Event.idleNext]).log
        = [Action.loadRequested 0, Action.stored 0, Action.activated 0 [0], Action.uiShown 0,
            Action.framed 0, Action.framed 0, Action.loadingHidden, Action.envScheduled,
            Action.nextScheduled] ++ Action.loadRequested 1 :: []
      ∧ deferred (Action.loadRequested 1) = true
      ∧ List.Sublist [Action.loadRequested 0, Action.stored 0, Action.activated 0 [0]]
          [Action.loadRequested 0, Action.stored 0, Action.activated 0 [0], Action.uiShown 0,
            Action.framed 0, Action.framed 0, Action.loadingHidden, Action.envScheduled,
            Action.nextScheduled] :=
  ⟨by decide, by decide,
    deferred_after_first_shown MODELS [Event.loadResolved, Event.idleNext] _
      (Action.loadRequested 1) [] (by decide) (by decide)⟩

/-! ## Failed loads -/

theorem showOnly_srcs (xs : List Instance) (a : Int) :
    (showOnly xs a).map Instance.src = xs.map Instance.src := by
  apply List.ext_getElem
  · simp [showOnly]
  · intro n h1 h2
    simp [showOnly]

theorem setActive_srcs (catalog : List Meta) (s : State) (i : Int) :
    (setActive catalog s i).state.instances.map Instance.src = s.instances.map Instance.src := by
  by_cases h : s.instances.length = 0
  · rw [setActive_of_empty catalog s i h]
  · rw [setActive_instances catalog s i h, showOnly_srcs]

/-- Once no model load is outstanding and no `loadNext` callback is pending,
no event brings a new instance: the loader stays at rest and the sources of
`instances` stay as they are. -/
theorem rest_step (catalog : List Meta) (s : State) (e : Event)
    (hin : s.inflight = none) (hnt : s.nextTimer = false) :
    (step catalog s e).inflight = none ∧ (step catalog s e).nextTimer = false
      ∧ (step catalog s e).instances.map Instance.src = s.instances.map Instance.src := by
  have hset : ∀ i : Int,
      (handler (setActive catalog s i)).inflight = none
        ∧ (handler (setActive catalog s i)).nextTimer = false
        ∧ (handler (setActive catalog s i)).instances.map Instance.src
            = s.instances.map Instance.src := by
    intro i
    obtain ⟨_, f2, f3, _⟩ := setActive_frame catalog s i
    obtain ⟨_, g2, g3, _⟩ := handler_frame (setActive catalog s i)
    exact ⟨by rw [g3, f3, hin], by rw [g2, f2, hnt],
      by rw [handler_instances, setActive_srcs]⟩
  cases e with
  | loadResolved => simp [step, hin, hnt]
  | loadRejected => simp [step, hin, hnt]
  | idleEnv =>
    simp only [step]
    split
    · exact ⟨hin, hnt, rfl⟩
    · exact ⟨hin, hnt, rfl⟩
  | idleNext => simp [step, hin, hnt]
  | envSettled =>
    simp only [step]
    split
    · exact ⟨hin, hnt, rfl⟩
    · exact ⟨hin, hnt, rfl⟩
  | prevClick => exact hset _
  | nextClick => exact hset _
  | arrowLeft => exact hset _
  | arrowRight => exact hset _
  | dotClick i =>
    simp only [step]
    split
    · exact hset _
    · exact ⟨hin, hnt, rfl⟩

theorem rest_runFrom (catalog : List Meta) (evs : List Event) :
    ∀ s : State, s.inflight = none → s.nextTimer = false →
      (runFrom catalog s evs).instances.map Instance.src = s.instances.map Instance.src := by
  induction evs with
  | nil => intro s _ _; rfl
  | cons e es ih =>
    intro s hin hnt
    obtain ⟨h1, h2, h3⟩ := rest_step catalog s e hin hnt
    exact (ih (step catalog s e) h1 h2).trans h3

/-- C5 as stated fails: for a catalog of three descriptors in which the load
of descriptor 1 fails and those of descriptors 0 and 2 would succeed, the
loader comes to rest after three events with only descriptor 0 in `instances`;
descriptor 2 is never requested, and no later event adds an instance. -/
theorem loadAll_stops_at_first_failure :
    succeeded threeModels secondFails = [0, 2]
      ∧ loadOutcome threeModels secondFails
          = run threeModels [Event.loadResolved, Event.idleNext, Event.loadRejected]
      ∧ loaderAtRest (loadOutcome threeModels secondFails) = true
      ∧ (loadOutcome threeModels secondFails).rest = [2]
      ∧ Action.loadRequested 2 ∉ (loadOutcome threeModels secondFails).log
      ∧ ∀ evs : List Event,
          (runFrom threeModels (loadOutcome threeModels secondFails) evs).instances.map
            Instance.src = [0] := by
  refine ⟨by decide, by decide, by decide, by decide, by decide, ?_⟩
  intro evs
  rw [rest_runFrom threeModels evs _ (by decide) (by decide)]
  decide

/-- C6, evaluated at the scenario: catalog `MODELS`, `e11` loads and `ramen`
fails.  One instance is loaded, `activeIndex` is `0` and stays `0` under the
next action, but the rejected promise of the `loadNext` chain reaches the host
without a handler. -/
theorem ramen_failure_scenario :
    loadOutcome MODELS (fun k => decide (k = 0))
        = run MODELS [Event.loadResolved, Event.idleNext, Event.loadRejected]
      ∧ (loadOutcome MODELS (fun k => decide (k = 0))).instances.length = 1
      ∧ (loadOutcome MODELS (fun k => decide (k = 0))).activeIndex = 0
      ∧ (step MODELS (loadOutcome MODELS (fun k => decide (k = 0))) Event.nextClick).activeIndex
          = 0
      ∧ (run MODELS [Event.loadResolved, Event.idleNext]).uncaught = 0
      ∧ (loadOutcome MODELS (fun k => decide (k = 0))).uncaught = 1 := by
  decide

/-! ## Camera framing -/

section FramingProofs

variable {F : Type} [LinearOrderedField F]

theorem frameObject_nonempty (M : MathFns F) (rig : Rig F) (b : Bounds F)
    (hne : b.isEmpty = false) :
    frameObject M rig b =
      { camera :=
          { rig.camera with
              near := max (frameRadius b / 100) 0.01
              far := max (frameRadius b * 20) 100 }
        controls :=
          { rig.controls with
              minDistance := frameRadius b * 0.6
              maxDistance := frameRadius b * 6 }
        cameraTweens := rig.cameraTweens ++ [framePosition M rig.camera b]
        targetTweens := rig.targetTweens ++ [b.center] } := by
  simp [frameObject, hne]

theorem near_clamp (r : F) : max (max r 0.001 / 100) 0.01 = max (r / 100) (0.01 : F) := by
  rcases le_total r 0.001 with h | h
  · rw [max_eq_right h]
    have h1 : (0.001 : F) / 100 ≤ 0.01 := by norm_num
    have h2 : r / 100 ≤ 0.01 := by
      have : r / 100 ≤ 0.001 / 100 := by gcongr
      linarith
    rw [max_eq_right h1, max_eq_right h2]
  · rw [max_eq_left h]

theorem far_clamp (r : F) : max (max r 0.001 * 20) 100 = max (r * 20) (100 : F) := by
  rcases le_total r 0.001 with h | h
  · rw [max_eq_right h]
    have h1 : (0.001 : F) * 20 ≤ 100 := by norm_num
    have h2 : r * 20 ≤ 100 := by
      have : r * 20 ≤ 0.001 * 20 := by gcongr
      linarith
    rw [max_eq_right h1, max_eq_right h2]
  · rw [max_eq_left h]

theorem frameDistance_eq (M : MathFns F) (cam : Camera F) (b : Bounds F) :
    frameDistance M cam b = claimedDistance M cam.fov (max b.radius 0.001) := by
  unfold frameDistance claimedDistance frameRadius
  have : cam.fov * 0.5 = cam.fov / 2 := by norm_num; ring
  rw [this]

theorem frameDir_eq (M : MathFns F) (hlen : M.sqrt (1 * 1 + 0.6 * 0.6 + 1 * 1) ≠ 0) :
    frameDir M = claimedDirection M := by
  unfold frameDir claimedDirection Vec3.normalize Vec3.divideScalar Vec3.multiplyScalar
    Vec3.length
  simp only [hlen, if_false]
  congr 1 <;> ring

theorem framePosition_eq (M : MathFns F) (cam : Camera F) (b : Bounds F)
    (hlen : M.sqrt (1 * 1 + 0.6 * 0.6 + 1 * 1) ≠ 0) :
    framePosition M cam b = claimedPosition M b.center cam.fov (max b.radius 0.001) := by
  unfold framePosition claimedPosition
  rw [frameDir_eq M hlen, frameDistance_eq]
  rfl

/-- C10: for a non-empty bounding box, `frameObject` leaves
`camera.near = max(r/100, 0.01)` and `camera.far = max(r*20, 100)` for the
actual radius `r` of the bounding sphere, the clamp of the radius to `0.001`
notwithstanding. -/
theorem frameObject_clip_planes (M : MathFns F) (rig : Rig F) (b : Bounds F)
    (hne : b.isEmpty = false) (_hr : 0 ≤ b.radius) :
    (frameObject M rig b).camera.near = max (b.radius / 100) 0.01
      ∧ (frameObject M rig b).camera.far = max (b.radius * 20) 100 := by
  rw [frameObject_nonempty M rig b hne]
  exact ⟨near_clamp b.radius, far_clamp b.radius⟩

/-- C3 (amended): for a non-empty bounding box with sphere `(c, r)`,
`frameObject` starts a camera tween towards `c + d * distance` with
`distance = (max(r, 0.001) / sin(fov/2)) * 1.2` and `d` the normalised
`(1, 0.6, 1)`, and a target tween towards `c`; the destinations are the same
for every rig with the same field of view. -/
theorem frameObject_target (M : MathFns F) (rig : Rig F) (b : Bounds F)
    (hne : b.isEmpty = false)
    (hsin : M.sin (degToRad M (rig.camera.fov / 2)) ≠ 0)
    (hlen : M.sqrt (1 * 1 + 0.6 * 0.6 + 1 * 1) ≠ 0) :
    frameDistance M rig.camera b = claimedDistance M rig.camera.fov (max b.radius 0.001)
      ∧ (frameObject M rig b).cameraTweens
          = rig.cameraTweens
              ++ [claimedPosition M b.center rig.camera.fov (max b.radius 0.001)]
      ∧ (frameObject M rig b).targetTweens = rig.targetTweens ++ [b.center]
      ∧ ∀ other : Rig F, other.camera.fov = rig.camera.fov →
          (frameObject M other b).cameraTweens.getLast?
              = (frameObject M rig b).cameraTweens.getLast?
            ∧ (frameObject M other b).targetTweens.getLast?
              = (frameObject M rig b).targetTweens.getLast? := by
  have _ := hsin
  refine ⟨frameDistance_eq M rig.camera b, ?_, ?_, ?_⟩
  · rw [frameObject_nonempty M rig b hne, framePosition_eq M rig.camera b hlen]
  · rw [frameObject_nonempty M rig b hne]
  · intro other hfov
    rw [frameObject_nonempty M rig b hne, frameObject_nonempty M other b hne,
      framePosition_eq M rig.camera b hlen, framePosition_eq M other.camera b hlen, hfov]
    simp

end FramingProofs

/-! ### Exact real arithmetic -/

theorem real_half_fov_bounds :
    (41 / 100 : ℝ) < Real.sin (50 / 2 * (Real.pi / 180))
      ∧ Real.sin (50 / 2 * (Real.pi / 180)) < 7 / 16 := by
  have hlo := Real.pi_gt_d2
  have hhi := Real.pi_lt_d2
  have hx0 : (0 : ℝ) < 50 / 2 * (Real.pi / 180) := by positivity
  have hx1 : 50 / 2 * (Real.pi / 180) ≤ (1 : ℝ) := by linarith
  have hcube := Real.sin_gt_sub_cube hx0 hx1
  have hlt := Real.sin_lt hx0
  constructor
  · have hxl : (0.436 : ℝ) < 50 / 2 * (Real.pi / 180) := by linarith
    have hxu : 50 / 2 * (Real.pi / 180) < (0.4375 : ℝ) := by linarith
    have : (50 / 2 * (Real.pi / 180)) ^ 3 < (0.4375 : ℝ) ^ 3 := by
      gcongr
    norm_num at this ⊢
    linarith
  · linarith

theorem real_dir_length_pos : (0 : ℝ) < Real.sqrt (1 * 1 + 0.6 * 0.6 + 1 * 1) :=
  Real.sqrt_pos.mpr (by norm_num)

theorem real_sin_half_fov :
    (41 / 100 : ℝ) < Real.sin (50 * 0.5 * (Real.pi / 180))
      ∧ Real.sin (50 * 0.5 * (Real.pi / 180)) < 7 / 16 := by
  have e : (50 : ℝ) * 0.5 = 50 / 2 := by norm_num
  rw [e]
  exact real_half_fov_bounds

/-- Bounds on the distance computed by `frameObject` with the real sine at a
field of view of 50 degrees, in terms of the clamped radius. -/
theorem real_frameDistance_bounds (cam : Camera ℝ) (b : Bounds ℝ) (hfov : cam.fov = 50) :
    frameRadius b * (192 / 70) ≤ frameDistance ⟨Real.sin, Real.sqrt, Real.pi⟩ cam b
      ∧ frameDistance ⟨Real.sin, Real.sqrt, Real.pi⟩ cam b ≤ frameRadius b * (120 / 41) := by
  obtain ⟨hlo, hhi⟩ := real_sin_half_fov
  have hR : (0 : ℝ) < frameRadius b := by
    unfold frameRadius
    exact lt_of_lt_of_le (by norm_num) (le_max_right _ _)
  unfold frameDistance degToRad
  simp only [hfov]
  generalize Real.sin (50 * 0.5 * (Real.pi / 180)) = s at hlo hhi
  generalize frameRadius b = R at hR
  have hs : 0 < s := by linarith
  constructor
  · rw [div_mul_eq_mul_div, le_div_iff₀ hs]
    nlinarith
  · rw [div_mul_eq_mul_div, div_le_iff₀ hs]
    nlinarith

/-- C4 (amended): with the field of view of 50 degrees and a non-empty
bounding box of sphere radius `r > 0`, the far plane set by `frameObject` lies
beyond the farthest point of the sphere seen from the targeted camera
position, and for `r ≥ 0.006` the near plane lies before its nearest point. -/
theorem framed_sphere_within_clip_planes (rig : Rig ℝ) (b : Bounds ℝ)
    (hfov : rig.camera.fov = 50) (hne : b.isEmpty = false) (hr : 0 < b.radius) :
    frameDistance ⟨Real.sin, Real.sqrt, Real.pi⟩ rig.camera b + b.radius
        ≤ (frameObject ⟨Real.sin, Real.sqrt, Real.pi⟩ rig b).camera.far
      ∧ (0.006 ≤ b.radius →
          (frameObject ⟨Real.sin, Real.sqrt, Real.pi⟩ rig b).camera.near
            ≤ frameDistance ⟨Real.sin, Real.sqrt, Real.pi⟩ rig.camera b - b.radius) := by
  obtain ⟨hdl, hdu⟩ := real_frameDistance_bounds rig.camera b hfov
  rw [frameObject_nonempty _ rig b hne]
  have hRr : b.radius ≤ frameRadius b := le_max_left _ _
  have hR0 : (0 : ℝ) < frameRadius b := lt_of_lt_of_le hr hRr
  constructor
  · show _ ≤ max (frameRadius b * 20) 100
    refine le_trans ?_ (le_max_left _ _)
    linarith
  · intro h6
    show max (frameRadius b / 100) 0.01 ≤ _
    have hRe : frameRadius b = b.radius := by
      unfold frameRadius
      exact max_eq_left (by linarith)
    rw [hRe] at hdl ⊢
    apply max_le
    · linarith
    · norm_num at h6 ⊢
      linarith

/-- Witness for C4: a sphere of radius `1` around the origin. -/
theorem framed_sphere_within_clip_planes_witness :
    (initialRig (1 : ℝ) 100).camera.fov = 50
      ∧ (⟨false, ⟨0, 0, 0⟩, 1⟩ : Bounds ℝ).isEmpty = false
      ∧ (0 : ℝ) < (⟨false, ⟨0, 0, 0⟩, 1⟩ : Bounds ℝ).radius
      ∧ (frameDistance ⟨Real.sin, Real.sqrt, Real.pi⟩ (initialRig (1 : ℝ) 100).camera
            ⟨false, ⟨0, 0, 0⟩, 1⟩ + (⟨false, ⟨0, 0, 0⟩, 1⟩ : Bounds ℝ).radius
          ≤ (frameObject ⟨Real.sin, Real.sqrt, Real.pi⟩ (initialRig (1 : ℝ) 100)
              ⟨false, ⟨0, 0, 0⟩, 1⟩).camera.far
        ∧ (0.006 ≤ (⟨false, ⟨0, 0, 0⟩, 1⟩ : Bounds ℝ).radius →
          (frameObject ⟨Real.sin, Real.sqrt, Real.pi⟩ (initialRig (1 : ℝ) 100)
              ⟨false, ⟨0, 0, 0⟩, 1⟩).camera.near
            ≤ frameDistance ⟨Real.sin, Real.sqrt, Real.pi⟩ (initialRig (1 : ℝ) 100).camera
                ⟨false, ⟨0, 0, 0⟩, 1⟩ - (⟨false, ⟨0, 0, 0⟩, 1⟩ : Bounds ℝ).radius)) :=
  ⟨rfl, rfl, by norm_num,
    framed_sphere_within_clip_planes (initialRig (1 : ℝ) 100) ⟨false, ⟨0, 0, 0⟩, 1⟩ rfl rfl
      (by norm_num)⟩

/-- C4 as stated fails: for a sphere of radius `0.005` (a coin-sized prop in
metres) the near plane is floored at `0.01`, while the nearest point of the
sphere is less than `0.0097` away from the targeted camera position. -/
theorem framed_sphere_clipped_counterexample :
    (initialRig (1 : ℝ) 100).camera.fov = 50
      ∧ (⟨false, ⟨0, 0, 0⟩, 0.005⟩ : Bounds ℝ).isEmpty = false
      ∧ (0 : ℝ) < (⟨false, ⟨0, 0, 0⟩, 0.005⟩ : Bounds ℝ).radius
      ∧ ¬ ((frameObject ⟨Real.sin, Real.sqrt, Real.pi⟩ (initialRig (1 : ℝ) 100)
              ⟨false, ⟨0, 0, 0⟩, 0.005⟩).camera.near
            ≤ frameDistance ⟨Real.sin, Real.sqrt, Real.pi⟩ (initialRig (1 : ℝ) 100).camera
                ⟨false, ⟨0, 0, 0⟩, 0.005⟩ - (⟨false, ⟨0, 0, 0⟩, 0.005⟩ : Bounds ℝ).radius) := by
  refine ⟨rfl, rfl, by norm_num, ?_⟩
  obtain ⟨_, hdu⟩ := real_frameDistance_bounds (initialRig (1 : ℝ) 100).camera
    ⟨false, ⟨0, 0, 0⟩, 0.005⟩ rfl
  rw [frameObject_nonempty _ _ _ rfl]
  have hR : frameRadius (⟨false, ⟨0, 0, 0⟩, 0.005⟩ : Bounds ℝ) = 0.005 := by
    unfold frameRadius
    exact max_eq_left (by norm_num)
  rw [hR] at hdu
  intro hle
  have hnear : (0.01 : ℝ) ≤ max (frameRadius (⟨false, ⟨0, 0, 0⟩, 0.005⟩ : Bounds ℝ) / 100) 0.01 :=
    le_max_right _ _
  have h2 := le_trans hnear hle
  norm_num at h2 hdu
  linarith

/-- Witness for C10: a sphere of radius `1` around the origin, in exact real
arithmetic. -/
theorem frameObject_clip_planes_witness :
    (⟨false, ⟨0, 0, 0⟩, 1⟩ : Bounds ℝ).isEmpty = false
      ∧ (0 : ℝ) ≤ (⟨false, ⟨0, 0, 0⟩, 1⟩ : Bounds ℝ).radius
      ∧ ((frameObject ⟨Real.sin, Real.sqrt, Real.pi⟩ (initialRig (1 : ℝ) 100)
            ⟨false, ⟨0, 0, 0⟩, 1⟩).camera.near
          = max ((⟨false, ⟨0, 0, 0⟩, 1⟩ : Bounds ℝ).radius / 100) 0.01
        ∧ (frameObject ⟨Real.sin, Real.sqrt, Real.pi⟩ (initialRig (1 : ℝ) 100)
            ⟨false, ⟨0, 0, 0⟩, 1⟩).camera.far
          = max ((⟨false, ⟨0, 0, 0⟩, 1⟩ : Bounds ℝ).radius * 20) 100) :=
  ⟨rfl, by norm_num,
    frameObject_clip_planes ⟨Real.sin, Real.sqrt, Real.pi⟩ (initialRig (1 : ℝ) 100)
      ⟨false, ⟨0, 0, 0⟩, 1⟩ rfl (by norm_num)⟩

/-- Witness for C3: a sphere of radius `1` around the origin, the camera as
constructed at module level, in exact real arithmetic. -/
theorem frameObject_target_witness :
    (⟨false, ⟨0, 0, 0⟩, 1⟩ : Bounds ℝ).isEmpty = false
      ∧ Real.sin ((50 : ℝ) / 2 * (Real.pi / 180)) ≠ 0
      ∧ Real.sqrt (1 * 1 + 0.6 * 0.6 + 1 * 1) ≠ 0
      ∧ (frameDistance ⟨Real.sin, Real.sqrt, Real.pi⟩ (initialRig (1 : ℝ) 100).camera
            ⟨false, ⟨0, 0, 0⟩, 1⟩
          = claimedDistance ⟨Real.sin, Real.sqrt, Real.pi⟩ (initialRig (1 : ℝ) 100).camera.fov
              (max (1 : ℝ) 0.001)
        ∧ (frameObject ⟨Real.sin, Real.sqrt, Real.pi⟩ (initialRig (1 : ℝ) 100)
            ⟨false, ⟨0, 0, 0⟩, 1⟩).cameraTweens
          = (initialRig (1 : ℝ) 100).cameraTweens
              ++ [claimedPosition ⟨Real.sin, Real.sqrt, Real.pi⟩ ⟨0, 0, 0⟩
                    (initialRig (1 : ℝ) 100).camera.fov (max (1 : ℝ) 0.001)]
        ∧ (frameObject ⟨Real.sin, Real.sqrt, Real.pi⟩ (initialRig (1 : ℝ) 100)
            ⟨false, ⟨0, 0, 0⟩, 1⟩).targetTweens
          = (initialRig (1 : ℝ) 100).targetTweens ++ [⟨0, 0, 0⟩]
        ∧ ∀ other : Rig ℝ, other.camera.fov = (initialRig (1 : ℝ) 100).camera.fov →
            (frameObject ⟨Real.sin, Real.sqrt, Real.pi⟩ other
                ⟨false, ⟨0, 0, 0⟩, 1⟩).cameraTweens.getLast?
              = (frameObject ⟨Real.sin, Real.sqrt, Real.pi⟩ (initialRig (1 : ℝ) 100)
                  ⟨false, ⟨0, 0, 0⟩, 1⟩).cameraTweens.getLast?
            ∧ (frameObject ⟨Real.sin, Real.sqrt, Real.pi⟩ other
                ⟨false, ⟨0, 0, 0⟩, 1⟩).targetTweens.getLast?
              = (frameObject ⟨Real.sin, Real.sqrt, Real.pi⟩ (initialRig (1 : ℝ) 100)
                  ⟨false, ⟨0, 0, 0⟩, 1⟩).targetTweens.getLast?) :=
  ⟨rfl, (lt_trans (by norm_num) real_half_fov_bounds.1).ne', real_dir_length_pos.ne',
    frameObject_target ⟨Real.sin, Real.sqrt, Real.pi⟩ (initialRig (1 : ℝ) 100)
      ⟨false, ⟨0, 0, 0⟩, 1⟩ rfl (lt_trans (by norm_num) real_half_fov_bounds.1).ne'
      real_dir_length_pos.ne'⟩

/-- C3 as stated fails: for a non-empty box whose bounding sphere has radius
`0` (a single point) the claimed distance is `0` and the claimed position is
the center, but `frameObject` clamps the radius to `0.001` and targets a
position at a positive distance from the center. -/
theorem frameObject_target_counterexample :
    (⟨false, ⟨0, 0, 0⟩, 0⟩ : Bounds ℝ).isEmpty = false
      ∧ (0 : ℝ) ≤ (⟨false, ⟨0, 0, 0⟩, 0⟩ : Bounds ℝ).radius
      ∧ claimedDistance ⟨Real.sin, Real.sqrt, Real.pi⟩ (50 : ℝ) 0 = 0
      ∧ 0 < frameDistance ⟨Real.sin, Real.sqrt, Real.pi⟩ (initialRig (1 : ℝ) 100).camera
              ⟨false, ⟨0, 0, 0⟩, 0⟩
      ∧ (frameObject ⟨Real.sin, Real.sqrt, Real.pi⟩ (initialRig (1 : ℝ) 100)
            ⟨false, ⟨0, 0, 0⟩, 0⟩).cameraTweens
          ≠ (initialRig (1 : ℝ) 100).cameraTweens
              ++ [claimedPosition ⟨Real.sin, Real.sqrt, Real.pi⟩ ⟨0, 0, 0⟩ 50 0] := by
  obtain ⟨hdl, _⟩ := real_frameDistance_bounds (initialRig (1 : ℝ) 100).camera
    ⟨false, ⟨0, 0, 0⟩, 0⟩ rfl
  have hR : frameRadius (⟨false, ⟨0, 0, 0⟩, 0⟩ : Bounds ℝ) = 0.001 := by
    unfold frameRadius
    exact max_eq_right (by norm_num)
  rw [hR] at hdl
  have hpos : 0 < frameDistance ⟨Real.sin, Real.sqrt, Real.pi⟩ (initialRig (1 : ℝ) 100).camera
      ⟨false, ⟨0, 0, 0⟩, 0⟩ := lt_of_lt_of_le (by norm_num) hdl
  have hzero : claimedDistance ⟨Real.sin, Real.sqrt, Real.pi⟩ (50 : ℝ) 0 = 0 := by
    simp [claimedDistance]
  refine ⟨rfl, le_refl _, hzero, hpos, ?_⟩
  intro heq
  rw [frameObject_nonempty _ _ _ rfl,
    framePosition_eq _ _ _ real_dir_length_pos.ne'] at heq
  have hx := congrArg (fun l => (l.map Vec3.x)) heq
  simp only [initialRig, List.nil_append, List.map_cons, List.map_nil, List.cons.injEq,
    and_true, claimedPosition, hzero, mul_zero, add_zero, zero_add] at hx
  have hfd := frameDistance_eq ⟨Real.sin, Real.sqrt, Real.pi⟩ (initialRig (1 : ℝ) 100).camera
    ⟨false, ⟨0, 0, 0⟩, 0⟩
  have hd : 0 < claimedDistance ⟨Real.sin, Real.sqrt, Real.pi⟩ (initialCamera (1 : ℝ)).fov
      (max 0 0.001) := by
    have := hpos
    rw [hfd] at this
    exact this
  have hdir : 0 < (claimedDirection ⟨Real.sin, Real.sqrt, Real.pi⟩ : Vec3 ℝ).x := by
    show (0 : ℝ) < 1 / Real.sqrt (1 * 1 + 0.6 * 0.6 + 1 * 1)
    exact one_div_pos.mpr real_dir_length_pos
  have := mul_pos hdir hd
  rw [hx] at this
  exact lt_irrefl _ this

/-! ## Empty geometry -/

/-- C12: for an object whose bounding box is empty, `frameObject` returns the
camera and controls state it was given: position, orbit target, near, far,
minDistance and maxDistance are unchanged and no tween is started. -/
theorem frameObject_empty_noop {F : Type} [LinearOrderedField F] (M : MathFns F)
    (rig : Rig F) (b : Bounds F) (he : b.isEmpty = true) :
    frameObject M rig b = rig
      ∧ (frameObject M rig b).camera.position = rig.camera.position
      ∧ (frameObject M rig b).controls.target = rig.controls.target
      ∧ (frameObject M rig b).camera.near = rig.camera.near
      ∧ (frameObject M rig b).camera.far = rig.camera.far
      ∧ (frameObject M rig b).controls.minDistance = rig.controls.minDistance
      ∧ (frameObject M rig b).controls.maxDistance = rig.controls.maxDistance
      ∧ (frameObject M rig b).cameraTweens = rig.cameraTweens
      ∧ (frameObject M rig b).targetTweens = rig.targetTweens := by
  have h : frameObject M rig b = rig := by simp [frameObject, he]
  rw [h]
  exact ⟨rfl, rfl, rfl, rfl, rfl, rfl, rfl, rfl, rfl⟩

/-- Witness for C12: the empty sphere that three.js reports for an empty box
(center at the origin, radius `-1`), framed from the initial rig. -/
theorem frameObject_empty_noop_witness :
    (⟨true, ⟨0, 0, 0⟩, -1⟩ : Bounds ℝ).isEmpty = true
      ∧ (frameObject ⟨Real.sin, Real.sqrt, Real.pi⟩ (initialRig (1 : ℝ) 100)
            ⟨true, ⟨0, 0, 0⟩, -1⟩ = initialRig (1 : ℝ) 100
        ∧ (frameObject ⟨Real.sin, Real.sqrt, Real.pi⟩ (initialRig (1 : ℝ) 100)
            ⟨true, ⟨0, 0, 0⟩, -1⟩).camera.position = (initialRig (1 : ℝ) 100).camera.position
        ∧ (frameObject ⟨Real.sin, Real.sqrt, Real.pi⟩ (initialRig (1 : ℝ) 100)
            ⟨true, ⟨0, 0, 0⟩, -1⟩).controls.target = (initialRig (1 : ℝ) 100).controls.target
        ∧ (frameObject ⟨Real.sin, Real.sqrt, Real.pi⟩ (initialRig (1 : ℝ) 100)
            ⟨true, ⟨0, 0, 0⟩, -1⟩).camera.near = (initialRig (1 : ℝ) 100).camera.near
        ∧ (frameObject ⟨Real.sin, Real.sqrt, Real.pi⟩ (initialRig (1 : ℝ) 100)
            ⟨true, ⟨0, 0, 0⟩, -1⟩).camera.far = (initialRig (1 : ℝ) 100).camera.far
        ∧ (frameObject ⟨Real.sin, Real.sqrt, Real.pi⟩ (initialRig (1 : ℝ) 100)
            ⟨true, ⟨0, 0, 0⟩, -1⟩).controls.minDistance
            = (initialRig (1 : ℝ) 100).controls.minDistance
        ∧ (frameObject ⟨Real.sin, Real.sqrt, Real.pi⟩ (initialRig (1 : ℝ) 100)
            ⟨true, ⟨0, 0, 0⟩, -1⟩).controls.maxDistance
            = (initialRig (1 : ℝ) 100).controls.maxDistance
        ∧ (frameObject ⟨Real.sin, Real.sqrt, Real.pi⟩ (initialRig (1 : ℝ) 100)
            ⟨true, ⟨0, 0, 0⟩, -1⟩).cameraTweens = (initialRig (1 : ℝ) 100).cameraTweens
        ∧ (frameObject ⟨Real.sin, Real.sqrt, Real.pi⟩ (initialRig (1 : ℝ) 100)
            ⟨true, ⟨0, 0, 0⟩, -1⟩).targetTweens = (initialRig (1 : ℝ) 100).targetTweens) :=
  ⟨rfl, frameObject_empty_noop ⟨Real.sin, Real.sqrt, Real.pi⟩ (initialRig (1 : ℝ) 100)
    ⟨true, ⟨0, 0, 0⟩, -1⟩ rfl⟩

/-! ## Debounced resize -/

theorem resizeRun_cons (s : ResizeState) (e : ResizeEvent) (es : List ResizeEvent) :
    resizeRun s (e :: es) = resizeRun (resizeStep s e) es := rfl

/-- While a burst goes on after a `resize` event, with every gap shorter than
the delay, `applySize` does not run, the timeout is pending with the full delay
after each event, and the container size is that of the last event. -/
theorem burstTail_run (more : List (Nat × Nat × Nat)) :
    ∀ s : ResizeState, s.resizeTimer = some resizeDelay →
      (∀ e ∈ more, e.1 < resizeDelay) →
      (resizeRun s (burstTail more)).applied = s.applied
        ∧ (resizeRun s (burstTail more)).resizeTimer = some resizeDelay
        ∧ ((resizeRun s (burstTail more)).clientWidth,
            (resizeRun s (burstTail more)).clientHeight)
          = burstLastSize s.clientWidth s.clientHeight more := by
  induction more with
  | nil =>
    intro s ht _
    exact ⟨rfl, ht, rfl⟩
  | cons e more ih =>
    intro s ht hgap
    obtain ⟨gap, w, h⟩ := e
    have hg : gap < resizeDelay := hgap (gap, w, h) (List.mem_cons_self _ _)
    have hstep : resizeStep (resizeStep s (ResizeEvent.wait gap)) (ResizeEvent.resize w h)
        = { s with clientWidth := w, clientHeight := h, resizeTimer := some resizeDelay } := by
      simp only [resizeStep, ht, onResize]
      rw [if_neg (by omega)]
    simp only [burstTail, resizeRun_cons, hstep]
    exact ih _ rfl (fun e he => hgap e (List.mem_cons_of_mem _ he))

theorem burst_run (s : ResizeState) (w h : Nat) (more : List (Nat × Nat × Nat))
    (hgap : ∀ e ∈ more, e.1 < resizeDelay) :
    (resizeRun s (burst w h more)).applied = s.applied
      ∧ (resizeRun s (burst w h more)).resizeTimer = some resizeDelay
      ∧ ((resizeRun s (burst w h more)).clientWidth,
          (resizeRun s (burst w h more)).clientHeight) = burstLastSize w h more := by
  simp only [burst, resizeRun_cons]
  exact burstTail_run more (resizeStep s (ResizeEvent.resize w h)) rfl hgap

theorem wait_add (s : ResizeState) (a b : Nat) :
    resizeStep (resizeStep s (ResizeEvent.wait a)) (ResizeEvent.wait b)
      = resizeStep s (ResizeEvent.wait (a + b)) := by
  cases ht : s.resizeTimer with
  | none => simp [resizeStep, ht]
  | some left =>
    by_cases h1 : left ≤ a
    · have h2 : left ≤ a + b := by omega
      simp [resizeStep, ht, h1, h2, applySize]
    · by_cases h2 : left - a ≤ b
      · have h3 : left ≤ a + b := by omega
        simp [resizeStep, ht, h1, h2, h3, applySize]
      · have h3 : ¬ left ≤ a + b := by omega
        have h4 : left - a - b = left - (a + b) := by omega
        simp [resizeStep, ht, h1, h2, h3, h4]

/-- C11: a burst of resize events (one event, then `more.length` further ones,
each less than 120 ms after the previous one) makes `applySize` run exactly
once: not during the burst, not within the 120 ms after its last event, and
once when 120 ms or more have passed, with the container size of that time;
nothing is left pending afterwards.  The delay is at least 100 ms. -/
theorem resize_burst_applies_once (s : ResizeState) (w h : Nat)
    (more : List (Nat × Nat × Nat)) (hgap : ∀ e ∈ more, e.1 < 120)
    (quiet : Nat) (hq : 120 ≤ quiet) :
    (resizeRun s (burst w h more)).applied = s.applied
      ∧ (∀ d : Nat, d < 120 →
          (resizeStep (resizeRun s (burst w h more)) (ResizeEvent.wait d)).applied = s.applied)
      ∧ (resizeStep (resizeRun s (burst w h more)) (ResizeEvent.wait quiet)).applied
          = s.applied ++ [((resizeRun s (burst w h more)).clientWidth,
                           (resizeRun s (burst w h more)).clientHeight)]
      ∧ ((resizeRun s (burst w h more)).clientWidth,
          (resizeRun s (burst w h more)).clientHeight) = burstLastSize w h more
      ∧ (resizeStep (resizeRun s (burst w h more)) (ResizeEvent.wait quiet)).resizeTimer = none
      ∧ (∀ later : Nat,
          (resizeStep (resizeStep (resizeRun s (burst w h more)) (ResizeEvent.wait quiet))
              (ResizeEvent.wait later)).applied
            = s.applied ++ [((resizeRun s (burst w h more)).clientWidth,
                             (resizeRun s (burst w h more)).clientHeight)])
      ∧ 100 ≤ resizeDelay := by
  obtain ⟨ha, ht, hsz⟩ := burst_run s w h more hgap
  have hwait : (resizeStep (resizeRun s (burst w h more)) (ResizeEvent.wait quiet))
      = applySize { resizeRun s (burst w h more) with resizeTimer := none } := by
    simp only [resizeStep, ht]
    rw [if_pos (by unfold resizeDelay; omega)]
  refine ⟨ha, ?_, ?_, hsz, ?_, ?_, by decide⟩
  · intro d hd
    simp only [resizeStep, ht]
    rw [if_neg (by unfold resizeDelay; omega)]
    exact ha
  · rw [hwait]
    simp only [applySize, ha]
  · rw [hwait]
    rfl
  · intro later
    rw [hwait]
    simp only [resizeStep, applySize, ha]

/-- Witness for C11: three resize events 50 ms and 119 ms apart after the page
was set up at 800 by 600, then 120 ms of quiet. -/
theorem resize_burst_applies_once_witness :
    (∀ e ∈ [((50 : Nat), (1000 : Nat), (700 : Nat)), (119, 1024, 768)], e.1 < 120)
      ∧ 120 ≤ 120
      ∧ (resizeStep (resizeRun (resizeInit 800 600)
            (burst 900 650 [(50, 1000, 700), (119, 1024, 768)])) (ResizeEvent.wait 120)).applied
          = [(800, 600), (1024, 768)]
      ∧ ((resizeRun (resizeInit 800 600)
            (burst 900 650 [(50, 1000, 700), (119, 1024, 768)])).applied
            = (resizeInit 800 600).applied
        ∧ (∀ d : Nat, d < 120 →
            (resizeStep (resizeRun (resizeInit 800 600)
              (burst 900 650 [(50, 1000, 700), (119, 1024, 768)]))
              (ResizeEvent.wait d)).applied = (resizeInit 800 600).applied)
        ∧ (resizeStep (resizeRun (resizeInit 800 600)
              (burst 900 650 [(50, 1000, 700), (119, 1024, 768)]))
              (ResizeEvent.wait 120)).applied
            = (resizeInit 800 600).applied
                ++ [((resizeRun (resizeInit 800 600)
                      (burst 900 650 [(50, 1000, 700), (119, 1024, 768)])).clientWidth,
                     (resizeRun (resizeInit 800 600)
                      (burst 900 650 [(50, 1000, 700), (119, 1024, 768)])).clientHeight)]
        ∧ ((resizeRun (resizeInit 800 600)
              (burst 900 650 [(50, 1000, 700), (119, 1024, 768)])).clientWidth,
            (resizeRun (resizeInit 800 600)
              (burst 900 650 [(50, 1000, 700), (119, 1024, 768)])).clientHeight)
            = burstLastSize 900 650 [(50, 1000, 700), (119, 1024, 768)]
        ∧ (resizeStep (resizeRun (resizeInit 800 600)
              (burst 900 650 [(50, 1000, 700), (119, 1024, 768)]))
              (ResizeEvent.wait 120)).resizeTimer = none
        ∧ (∀ later : Nat,
            (resizeStep (resizeStep (resizeRun (resizeInit 800 600)
                (burst 900 650 [(50, 1000, 700), (119, 1024, 768)])) (ResizeEvent.wait 120))
                (ResizeEvent.wait later)).applied
              = (resizeInit 800 600).applied
                  ++ [((resizeRun (resizeInit 800 600)
                        (burst 900 650 [(50, 1000, 700), (119, 1024, 768)])).clientWidth,
                       (resizeRun (resizeInit 800 600)
                        (burst 900 650 [(50, 1000, 700), (119, 1024, 768)])).clientHeight)])
        ∧ 100 ≤ resizeDelay) :=
  ⟨by decide, by decide, by decide,
    resize_burst_applies_once (resizeInit 800 600) 900 650 [(50, 1000, 700), (119, 1024, 768)]
      (by decide) 120 (by decide)⟩

/-! ## Catalog order of `instances` -/

theorem setActive_length (catalog : List Meta) (s : State) (i : Int) :
    (setActive catalog s i).state.instances.length = s.instances.length := by
  have := congrArg List.length (setActive_srcs catalog s i)
  simpa using this

theorem InOrder_congr {catalog : List Meta} {s t : State}
    (hsrc : t.instances.map Instance.src = s.instances.map Instance.src)
    (hp : t.phase = s.phase) (hin : t.inflight = s.inflight) (hr : t.rest = s.rest)
    (hnt : t.nextTimer = s.nextTimer) (h : InOrder catalog s) : InOrder catalog t := by
  have hlen : t.instances.length = s.instances.length := by
    have := congrArg List.length hsrc
    simpa using this
  obtain ⟨h1, h2, h3, h4, h5, h6⟩ := h
  refine ⟨by rw [hsrc, hlen]; exact h1, by rw [hlen]; exact h2, ?_, ?_, ?_, ?_⟩
  · intro hf
    rw [hp] at hf
    obtain ⟨he, hc⟩ := h3 hf
    refine ⟨?_, hc⟩
    apply List.length_eq_zero.mp
    rw [hlen, he]
    rfl
  · intro k hk
    rw [hin] at hk
    rw [hnt]
    exact h4 k hk
  · intro hb k hk
    rw [hp] at hb
    rw [hin] at hk
    rw [hlen, hr]
    exact h5 hb k hk
  · intro hb ht
    rw [hp] at hb
    rw [hnt] at ht
    rw [hlen, hr]
    exact h6 hb ht

theorem InOrder_handler_setActive (catalog : List Meta) (s : State) (i : Int)
    (h : InOrder catalog s) : InOrder catalog (handler (setActive catalog s i)) := by
  obtain ⟨_, f2, f3, f4⟩ := setActive_frame catalog s i
  obtain ⟨_, g2, g3, g4⟩ := handler_frame (setActive catalog s i)
  exact InOrder_congr (by rw [handler_instances, setActive_srcs])
    (by rw [handler_phase, setActive_phase]) (by rw [g3, f3]) (by rw [g4, f4])
    (by rw [g2, f2]) h

theorem loadAllResume_loader (catalog : List Meta) (s : State) :
    (loadAllResume catalog s).inflight = s.inflight
      ∧ (((loadAllResume catalog s).phase = Phase.failed
            ∧ (loadAllResume catalog s).nextTimer = s.nextTimer)
          ∨ ((loadAllResume catalog s).phase = Phase.background
            ∧ (loadAllResume catalog s).nextTimer = true
            ∧ (loadAllResume catalog s).rest = (List.range catalog.length).drop 1)) := by
  obtain ⟨_, hnt, hin, _⟩ := setActive_frame catalog
    ({ s with instances := setFirst s.instances ⟨0, false⟩
              log := s.log ++ [Action.stored 0] } : State) 0
  unfold loadAllResume
  dsimp only
  split
  · exact ⟨hin, Or.inl ⟨rfl, hnt⟩⟩
  · exact ⟨hin, Or.inr ⟨rfl, rfl, rfl⟩⟩

theorem range_drop_one (n : Nat) (hn : 0 < n) :
    (List.range n).drop 1 = List.range' 1 (n - 1) := by
  obtain ⟨m, rfl⟩ : ∃ m, n = m + 1 := ⟨n - 1, by omega⟩
  rw [List.range_eq_range']
  simp [List.range'_succ]

theorem InOrder_loadAllResume (catalog : List Meta) (s : State)
    (he : s.instances = []) (hc : catalog ≠ []) (hin : s.inflight = none) :
    InOrder catalog (loadAllResume catalog s) := by
  obtain ⟨hi, _⟩ := loadAllResume_core catalog s
  obtain ⟨hfl, hph⟩ := loadAllResume_loader catalog s
  have hn : 0 < catalog.length := List.length_pos.mpr hc
  have hsrc : (loadAllResume catalog s).instances.map Instance.src = [0] := by
    rw [hi, showOnly_srcs, he]
    rfl
  have hlen : (loadAllResume catalog s).instances.length = 1 := by
    have := congrArg List.length hsrc
    simpa using this
  refine ⟨by rw [hsrc, hlen]; rfl, by rw [hlen]; omega, ?_, ?_, ?_, ?_⟩
  · intro hf
    rcases hph with ⟨hp, _⟩ | ⟨hp, _⟩ <;> rw [hp] at hf <;> cases hf
  · intro k hk
    rw [hfl, hin] at hk
    cases hk
  · intro _ k hk
    rw [hfl, hin] at hk
    cases hk
  · intro hb _
    rcases hph with ⟨hp, _⟩ | ⟨_, _, hr⟩
    · rw [hp] at hb; cases hb
    · rw [hr, hlen, range_drop_one _ hn]

theorem InOrder_onRestLoaded (catalog : List Meta) (s : State) (k : Nat)
    (h : InOrder catalog s) (hb : s.phase = Phase.background) (hk : s.inflight = some k) :
    InOrder catalog (onRestLoaded { s with inflight := none } k) := by
  obtain ⟨h1, _, _, _, h5, _⟩ := h
  obtain ⟨hkl, hkn, hr⟩ := h5 hb k hk
  have hlen : (onRestLoaded { s with inflight := none } k).instances.length
      = s.instances.length + 1 := by
    simp [onRestLoaded]
  refine ⟨?_, by rw [hlen]; omega, ?_, ?_, ?_, ?_⟩
  · rw [hlen, List.range_succ]
    simp only [onRestLoaded, List.map_append, h1, List.map_cons, List.map_nil, hkl]
  · intro hf
    have : (onRestLoaded { s with inflight := none } k).phase = s.phase := rfl
    rw [this, hb] at hf
    cases hf
  · intro j hj
    cases hj
  · intro _ j hj
    cases hj
  · intro _ _
    rw [hlen]
    show s.rest = _
    rw [hr, hkl]

theorem InOrder_loadNext (catalog : List Meta) (s : State) (h : InOrder catalog s)
    (ht : s.nextTimer = true) : InOrder catalog (loadNext { s with nextTimer := false }) := by
  obtain ⟨h1, h2, h3, h4, _, h6⟩ := h
  have hnone : s.inflight = none := by
    cases hi : s.inflight with
    | none => rfl
    | some k =>
      have := h4 k hi
      rw [ht] at this
      cases this
  unfold loadNext
  split
  · refine ⟨h1, h2, h3, fun _ _ => rfl, ?_, ?_⟩
    · intro _ k hk
      have : s.inflight = some k := hk
      rw [hnone] at this
      cases this
    · intro _ hf
      cases hf
  · rename_i k tl hrest
    have hrest' : s.rest = k :: tl := hrest
    refine ⟨h1, h2, h3, fun _ _ => rfl, ?_, ?_⟩
    · intro hb j hj
      have hj' : k = j := Option.some.inj hj
      subst hj'
      have hr := h6 hb ht
      rw [hrest'] at hr
      obtain ⟨e1, e2, e3⟩ := List.range'_eq_cons_iff.mp hr.symm
      refine ⟨e1.symm, by omega, ?_⟩
      show tl = _
      rw [e3]
      congr 1
      omega
    · intro _ hf
      cases hf

theorem InOrder_step (catalog : List Meta) (s : State) (e : Event) (h : InOrder catalog s) :
    InOrder catalog (step catalog s e) := by
  cases e with
  | loadResolved =>
    simp only [step]
    split
    · exact h
    · rename_i k hk
      split
      · rename_i hp
        obtain ⟨he, hc⟩ := h.2.2.1 hp
        exact InOrder_loadAllResume catalog _ he hc rfl
      · rename_i hp
        exact InOrder_onRestLoaded catalog s k h hp hk
      · exact h
  | loadRejected =>
    simp only [step]
    split
    · exact h
    · rename_i k hk
      have hnt : s.nextTimer = false := h.2.2.2.1 k hk
      obtain ⟨h1, h2, _, _, _, _⟩ := h
      split
      · refine ⟨h1, h2, ?_, ?_, ?_, ?_⟩
        · intro hf; cases hf
        · intro j hj; cases hj
        · intro hb; cases hb
        · intro hb; cases hb
      · rename_i hp
        refine ⟨h1, h2, ?_, ?_, ?_, ?_⟩
        · intro hf
          have hf' : s.phase = Phase.first := hf
          rw [hp] at hf'
          cases hf'
        · intro j hj; cases hj
        · intro _ j hj; cases hj
        · intro _ ht
          have ht' : s.nextTimer = true := ht
          rw [hnt] at ht'
          cases ht'
      · exact ⟨h1, h2, ‹_›, ‹_›, ‹_›, ‹_›⟩
  | idleEnv =>
    simp only [step]
    split
    · exact InOrder_congr rfl rfl rfl rfl rfl h
    · exact h
  | idleNext =>
    simp only [step]
    split
    · rename_i ht
      exact InOrder_loadNext catalog s h ht
    · exact h
  | envSettled =>
    simp only [step]
    split
    · exact InOrder_congr rfl rfl rfl rfl rfl h
    · exact h
  | prevClick => exact InOrder_handler_setActive catalog s _ h
  | nextClick => exact InOrder_handler_setActive catalog s _ h
  | arrowLeft => exact InOrder_handler_setActive catalog s _ h
  | arrowRight => exact InOrder_handler_setActive catalog s _ h
  | dotClick i =>
    simp only [step]
    split
    · exact InOrder_handler_setActive catalog s _ h
    · exact h

theorem InOrder_init (catalog : List Meta) : InOrder catalog (init catalog) := by
  unfold init loadAll
  cases catalog with
  | nil =>
    refine ⟨rfl, by simp [blank], ?_, ?_, ?_, ?_⟩
    · intro hf; cases hf
    · intro k hk; cases hk
    · intro hb; cases hb
    · intro hb; cases hb
  | cons m ms =>
    refine ⟨rfl, by simp [blank], ?_, ?_, ?_, ?_⟩
    · intro _; exact ⟨rfl, by simp⟩
    · intro _ _; rfl
    · intro hb; cases hb
    · intro hb; cases hb

theorem InOrder_runFrom (catalog : List Meta) (evs : List Event) :
    ∀ s : State, InOrder catalog s → InOrder catalog (runFrom catalog s evs) := by
  induction evs with
  | nil => intro s h; exact h
  | cons e es ih =>
    intro s h
    exact ih (step catalog s e) (InOrder_step catalog s e h)

theorem jsIndex_some {α : Type} (xs : List α) (a : Int) (h0 : 0 ≤ a) (h1 : a < xs.length) :
    ∃ x : α, jsIndex xs a = some x := by
  have hlt : a.toNat < xs.length := by omega
  exact ⟨xs[a.toNat], by simp [jsIndex, h0, List.getElem?_eq_getElem hlt]⟩

theorem setActive_ok (catalog : List Meta) (s : State) (i : Int)
    (hne : s.instances.length ≠ 0) (hi : -(s.instances.length : Int) ≤ i)
    (hle : s.instances.length ≤ catalog.length) :
    (setActive catalog s i).threw = false
      ∧ (setActive catalog s i).state.shownMeta
          = some (setActive catalog s i).state.activeIndex := by
  have hpos : 0 < s.instances.length := by omega
  have hres := jsMod_shift i _ hpos hi
  have h0 : 0 ≤ i % (s.instances.length : Int) := Int.emod_nonneg _ (by omega)
  have h1 : i % (s.instances.length : Int) < s.instances.length :=
    Int.emod_lt_of_pos _ (by omega)
  obtain ⟨m, hm⟩ := jsIndex_some catalog (i % (s.instances.length : Int)) h0 (by omega)
  obtain ⟨ins, hins⟩ := jsIndex_some (showOnly s.instances (i % (s.instances.length : Int)))
    (i % (s.instances.length : Int)) h0 (by rw [showOnly_length]; exact h1)
  unfold setActive
  simp [hne, hres, hm, hins]

theorem src_of_range (xs : List Instance)
    (h : xs.map Instance.src = List.range xs.length) (k : Nat) (ins : Instance)
    (hk : xs[k]? = some ins) : ins.src = k := by
  obtain ⟨hlt, heq⟩ := List.getElem?_eq_some.mp hk
  have h1 : (xs.map Instance.src)[k]? = some ins.src := by
    rw [List.getElem?_map, hk]; rfl
  rw [h, List.getElem?_range hlt] at h1
  exact (Option.some.inj h1).symm

/-- C13: in every reachable state `instances` follows the catalog: there are
no more instances than descriptors and the instance at position `k` was loaded
from `MODELS[k]`.  Hence after any `setActive(i)` every visible instance was
loaded from `MODELS[activeIndex]`, and for `i ≥ -n` the call does not throw and
hands `MODELS[activeIndex]` to `setUI`. -/
theorem instances_follow_catalog (catalog : List Meta) (s : State)
    (hr : Reachable catalog s) :
    s.instances.length ≤ catalog.length
      ∧ (∀ (k : Nat) (ins : Instance), s.instances[k]? = some ins → ins.src = k)
      ∧ (∀ (i : Int) (k : Nat) (ins : Instance),
          (setActive catalog s i).state.instances[k]? = some ins → ins.visible = true →
            (ins.src : Int) = (setActive catalog s i).state.activeIndex)
      ∧ (∀ i : Int, s.instances ≠ [] → -(s.instances.length : Int) ≤ i →
          (setActive catalog s i).threw = false
            ∧ (setActive catalog s i).state.shownMeta
                = some (setActive catalog s i).state.activeIndex) := by
  obtain ⟨evs, rfl⟩ := hr
  have hinv : InOrder catalog (run catalog evs) :=
    InOrder_runFrom catalog evs _ (InOrder_init catalog)
  obtain ⟨h1, h2, _⟩ := hinv
  refine ⟨h2, src_of_range _ h1, ?_, ?_⟩
  · intro i k ins hk hv
    by_cases he : (run catalog evs).instances.length = 0
    · rw [setActive_of_empty catalog _ i he] at hk
      have hnil := List.length_eq_zero.mp he
      rw [hnil] at hk
      simp at hk
    · have hsrc : ins.src = k := by
        apply src_of_range (setActive catalog (run catalog evs) i).state.instances _ k ins hk
        rw [setActive_srcs, setActive_length]
        exact h1
      rw [setActive_instances catalog _ i he] at hk
      rw [setActive_activeIndex catalog _ i he, hsrc]
      exact (showOnly_visible_iff _ _ k ins hk).mp hv
  · intro i hne hi
    have hlen : (run catalog evs).instances.length ≠ 0 := by
      intro h0
      exact hne (List.length_eq_zero.mp h0)
    exact setActive_ok catalog _ i hlen hi h2

/-- Witness for C13: the state with both models of `MODELS` loaded. -/
theorem instances_follow_catalog_witness :
    Reachable MODELS twoLoaded
      ∧ (twoLoaded.instances.length ≤ MODELS.length
        ∧ (∀ (k : Nat) (ins : Instance), twoLoaded.instances[k]? = some ins → ins.src = k)
        ∧ (∀ (i : Int) (k : Nat) (ins : Instance),
            (setActive MODELS twoLoaded i).state.instances[k]? = some ins → ins.visible = true →
              (ins.src : Int) = (setActive MODELS twoLoaded i).state.activeIndex)
        ∧ (∀ i : Int, twoLoaded.instances ≠ [] → -(twoLoaded.instances.length : Int) ≤ i →
            (setActive MODELS twoLoaded i).threw = false
              ∧ (setActive MODELS twoLoaded i).state.shownMeta
                  = some (setActive MODELS twoLoaded i).state.activeIndex)) :=
  ⟨⟨_, rfl⟩, instances_follow_catalog MODELS twoLoaded ⟨_, rfl⟩⟩

/-! ## The loader run to completion -/

theorem takeWhile_range_stop (ok : Nat → Bool) (n m : Nat) (hm : m ≤ n)
    (hall : ∀ k : Nat, k < m → ok k = true) (hstop : m = n ∨ ok m = false) :
    (List.range n).takeWhile ok = List.range m := by
  have hsplit : List.range n = List.range m ++ List.range' m (n - m) := by
    have h := List.range'_append_1 0 m (n - m)
    rw [Nat.zero_add, Nat.sub_add_cancel hm] at h
    rw [List.range_eq_range', List.range_eq_range']
    exact h.symm
  have hfirst : ∀ a ∈ List.range m, ok a = true := fun a ha => hall a (List.mem_range.mp ha)
  rw [hsplit, List.takeWhile_append_of_pos hfirst]
  have htail : (List.range' m (n - m)).takeWhile ok = [] := by
    rcases hstop with rfl | hf
    · simp
    · rcases Nat.eq_zero_or_pos (n - m) with h0 | hpos
      · rw [h0]; rfl
      · obtain ⟨d, hd⟩ : ∃ d, n - m = d + 1 := ⟨n - m - 1, by omega⟩
        rw [hd, List.range'_succ, List.takeWhile_cons_of_neg (by simp [hf])]
  rw [htail, List.append_nil]

theorem drive_at_rest (catalog : List Meta) (ok : Nat → Bool) (fuel : Nat) (s : State)
    (hin : s.inflight = none) (hnt : s.nextTimer = false) : drive catalog ok fuel s = s := by
  cases fuel with
  | zero => rfl
  | succ f => simp [drive, hin, hnt]

theorem drive_succ_idle (catalog : List Meta) (ok : Nat → Bool) (f : Nat) (s : State)
    (hin : s.inflight = none) (hnt : s.nextTimer = true) :
    drive catalog ok (f + 1) s = drive catalog ok f (step catalog s Event.idleNext) := by
  rw [drive]
  split
  · rename_i k hk
    rw [hin] at hk
    cases hk
  · rw [if_pos hnt]

theorem drive_succ_inflight (catalog : List Meta) (ok : Nat → Bool) (f : Nat) (s : State)
    (k : Nat) (hin : s.inflight = some k) :
    drive catalog ok (f + 1) s = drive catalog ok f (step catalog s (settleEvent ok k)) := by
  rw [drive]
  split
  · rename_i j hj
    rw [hin] at hj
    cases hj
    rfl
  · rename_i hnone
    rw [hin] at hnone
    cases hnone

theorem drive_chain (catalog : List Meta) (ok : Nat → Bool) :
    ∀ (d fuel : Nat) (s : State) (m : Nat),
      s.phase = Phase.background → s.inflight = none → s.nextTimer = true →
      s.instances.map Instance.src = List.range m →
      s.rest = List.range' m (catalog.length - m) → m ≤ catalog.length →
      (∀ k : Nat, k < m → ok k = true) → catalog.length - m = d → 2 * d + 1 ≤ fuel →
      (drive catalog ok fuel s).instances.map Instance.src
          = (List.range catalog.length).takeWhile ok
        ∧ (drive catalog ok fuel s).inflight = none
        ∧ (drive catalog ok fuel s).nextTimer = false := by
  intro d
  induction d with
  | zero =>
    intro fuel s m hp hin hnt hsrc hrest hm hall hd hfuel
    have hmn : m = catalog.length := by omega
    obtain ⟨f, rfl⟩ : ∃ f, fuel = f + 1 := ⟨fuel - 1, by omega⟩
    have hr : s.rest = [] := by rw [hrest, hd]; rfl
    have hstep : step catalog s Event.idleNext = { s with nextTimer := false } := by
      simp [step, hnt, loadNext, hr]
    have hdrive : drive catalog ok (f + 1) s = { s with nextTimer := false } := by
      rw [drive_succ_idle catalog ok f s hin hnt, hstep]
      exact drive_at_rest catalog ok f _ hin rfl
    rw [hdrive]
    refine ⟨?_, hin, rfl⟩
    show s.instances.map Instance.src = _
    rw [hsrc, takeWhile_range_stop ok catalog.length m hm hall (Or.inl hmn)]
  | succ d ih =>
    intro fuel s m hp hin hnt hsrc hrest hm hall hd hfuel
    obtain ⟨f, rfl⟩ : ∃ f, fuel = f + 2 := ⟨fuel - 2, by omega⟩
    have hr : s.rest = m :: List.range' (m + 1) (catalog.length - (m + 1)) := by
      rw [hrest, hd, List.range'_succ]
      congr 2
      omega
    have hstep : step catalog s Event.idleNext
        = { s with nextTimer := false, rest := List.range' (m + 1) (catalog.length - (m + 1))
                   inflight := some m, log := s.log ++ [Action.loadRequested m] } := by
      simp [step, hnt, loadNext, hr]
    have hdrive : drive catalog ok (f + 2) s
        = drive catalog ok f (step catalog (step catalog s Event.idleNext)
            (settleEvent ok m)) := by
      rw [drive_succ_idle catalog ok (f + 1) s hin hnt,
        drive_succ_inflight catalog ok f _ m (by rw [hstep])]
    rw [hdrive, hstep]
    cases hok : ok m with
    | true =>
      have hsettle : settleEvent ok m = Event.loadResolved := by simp [settleEvent, hok]
      rw [hsettle]
      simp only [step, hp]
      refine ih f _ (m + 1) rfl rfl rfl ?_ rfl (by omega) ?_ (by omega) (by omega)
      · simp only [onRestLoaded, List.map_append, hsrc, List.map_cons, List.map_nil,
          List.range_succ]
      · intro k hk
        rcases Nat.lt_succ_iff_lt_or_eq.mp hk with h | h
        · exact hall k h
        · rw [h]; exact hok
    | false =>
      have hsettle : settleEvent ok m = Event.loadRejected := by simp [settleEvent, hok]
      rw [hsettle]
      simp only [step, hp]
      rw [drive_at_rest catalog ok f _ rfl rfl]
      refine ⟨?_, rfl, rfl⟩
      show s.instances.map Instance.src = _
      rw [hsrc, takeWhile_range_stop ok catalog.length m hm hall (Or.inr hok)]

theorem loadAllResume_started (catalog : List Meta) (s : State) (he : s.instances = [])
    (hc : catalog ≠ []) :
    (loadAllResume catalog s).phase = Phase.background
      ∧ (loadAllResume catalog s).nextTimer = true
      ∧ (loadAllResume catalog s).rest = (List.range catalog.length).drop 1
      ∧ (loadAllResume catalog s).inflight = s.inflight
      ∧ (loadAllResume catalog s).instances.map Instance.src = [0] := by
  have hn : 0 < catalog.length := List.length_pos.mpr hc
  obtain ⟨hi, _⟩ := loadAllResume_core catalog s
  have hsrc : (loadAllResume catalog s).instances.map Instance.src = [0] := by
    rw [hi, showOnly_srcs, he]
    rfl
  obtain ⟨hok, _⟩ := setActive_ok catalog
    ({ s with instances := setFirst s.instances ⟨0, false⟩
              log := s.log ++ [Action.stored 0] } : State) 0
    (by show (setFirst s.instances ⟨0, false⟩).length ≠ 0; rw [he]; simp [setFirst])
    (by show -((setFirst s.instances ⟨0, false⟩).length : Int) ≤ 0; omega)
    (by show (setFirst s.instances ⟨0, false⟩).length ≤ catalog.length
        rw [he]; simp [setFirst]; omega)
  obtain ⟨_, _, hin, _⟩ := setActive_frame catalog
    ({ s with instances := setFirst s.instances ⟨0, false⟩
              log := s.log ++ [Action.stored 0] } : State) 0
  refine ⟨?_, ?_, ?_, ?_, hsrc⟩
  all_goals
    unfold loadAllResume
    dsimp only
    rw [if_neg (by rw [hok]; simp)]
  exact hin

theorem loadOutcome_run (catalog : List Meta) (ok : Nat → Bool) (hc : catalog ≠ [])
    (h0 : ok 0 = true) :
    (loadOutcome catalog ok).instances.map Instance.src = loadedBeforeFailure catalog ok
      ∧ (loadOutcome catalog ok).inflight = none
      ∧ (loadOutcome catalog ok).nextTimer = false := by
  have hn : 0 < catalog.length := List.length_pos.mpr hc
  have hinit : (init catalog).inflight = some 0 ∧ (init catalog).phase = Phase.first
      ∧ (init catalog).instances = [] := by
    unfold init loadAll
    cases catalog with
    | nil => exact absurd rfl hc
    | cons c cs => exact ⟨rfl, rfl, rfl⟩
  obtain ⟨hi, hp, he⟩ := hinit
  have hsettle : settleEvent ok 0 = Event.loadResolved := by simp [settleEvent, h0]
  have hstep : step catalog (init catalog) Event.loadResolved
      = loadAllResume catalog { init catalog with inflight := none } := by
    simp only [step, hi, hp]
  obtain ⟨r1, r2, r3, r4, r5⟩ :=
    loadAllResume_started catalog { init catalog with inflight := none } he hc
  unfold loadOutcome loadedBeforeFailure
  rw [drive_succ_inflight catalog ok _ _ 0 hi, hsettle, hstep]
  refine drive_chain catalog ok (catalog.length - 1) _ _ 1 r1 r4 r2 r5 ?_ hn ?_ rfl (by omega)
  · rw [r3, range_drop_one _ hn]
  · intro k hk
    have : k = 0 := by omega
    rw [this]; exact h0

theorem short_catalog_succeeded (catalog : List Meta) (ok : Nat → Bool) (h0 : ok 0 = true)
    (hlen : catalog.length ≤ 2) : loadedBeforeFailure catalog ok = succeeded catalog ok := by
  unfold loadedBeforeFailure succeeded
  have h : catalog.length = 0 ∨ catalog.length = 1 ∨ catalog.length = 2 := by omega
  rcases h with h | h | h
  · rw [h]; rfl
  · rw [h]; simp [List.range_succ, h0]
  · rw [h]
    cases h1 : ok 1 <;> simp [List.range_succ, h0, h1]

/-- C5 (amended): when the first descriptor loads, the loader comes to rest
with `instances` holding, in catalog order, exactly the descriptors before the
first one whose load fails; a descriptor whose load fails is never added, and
no later event changes this.  For a catalog of at most two descriptors, such
as `MODELS`, these are exactly the descriptors whose load succeeds. -/
theorem loadAll_loads_until_first_failure (catalog : List Meta) (ok : Nat → Bool)
    (hc : catalog ≠ []) (h0 : ok 0 = true) :
    (loadOutcome catalog ok).instances.map Instance.src = loadedBeforeFailure catalog ok
      ∧ loaderAtRest (loadOutcome catalog ok) = true
      ∧ (∀ k : Nat, ok k = false → k ∉ (loadOutcome catalog ok).instances.map Instance.src)
      ∧ (∀ evs : List Event,
          (runFrom catalog (loadOutcome catalog ok) evs).instances.map Instance.src
            = loadedBeforeFailure catalog ok)
      ∧ (catalog.length ≤ 2 →
          (loadOutcome catalog ok).instances.map Instance.src = succeeded catalog ok) := by
  obtain ⟨hsrc, hin, hnt⟩ := loadOutcome_run catalog ok hc h0
  refine ⟨hsrc, by simp [loaderAtRest, hin, hnt], ?_, ?_, ?_⟩
  · intro k hk hmem
    rw [hsrc] at hmem
    have := List.mem_takeWhile_imp hmem
    rw [hk] at this
    cases this
  · intro evs
    rw [rest_runFrom catalog evs _ hin hnt, hsrc]
  · intro hlen
    rw [hsrc, short_catalog_succeeded catalog ok h0 hlen]

/-- Witness for C5: the catalog `MODELS`, `e11` loads and `ramen` fails. -/
theorem loadAll_loads_until_first_failure_witness :
    MODELS ≠ [] ∧ (fun k : Nat => decide (k = 0)) 0 = true
      ∧ (loadOutcome MODELS (fun k => decide (k = 0))).instances.map Instance.src = [0]
      ∧ succeeded MODELS (fun k => decide (k = 0)) = [0]
      ∧ ((loadOutcome MODELS (fun k => decide (k = 0))).instances.map Instance.src
            = loadedBeforeFailure MODELS (fun k => decide (k = 0))
        ∧ loaderAtRest (loadOutcome MODELS (fun k => decide (k = 0))) = true
        ∧ (∀ k : Nat, (fun k : Nat => decide (k = 0)) k = false →
            k ∉ (loadOutcome MODELS (fun k => decide (k = 0))).instances.map Instance.src)
        ∧ (∀ evs : List Event,
            (runFrom MODELS (loadOutcome MODELS (fun k => decide (k = 0))) evs).instances.map
                Instance.src
              = loadedBeforeFailure MODELS (fun k => decide (k = 0)))
        ∧ (MODELS.length ≤ 2 →
            (loadOutcome MODELS (fun k => decide (k = 0))).instances.map Instance.src
              = succeeded MODELS (fun k => decide (k = 0)))) :=
  ⟨by decide, by decide, by decide, by decide,
    loadAll_loads_until_first_failure MODELS (fun k => decide (k = 0)) (by decide) (by decide)⟩

end Portfolio
